import Mathlib

/-!
Shallow embedding of the balance-and-state consistency core of the
CashByKing task/reward service (files `database.js` and `server.js`).

Modelling conventions:
* every SQLite table is a `List` of records inside one `DB` structure;
* monetary amounts are `Int` (the values moved by the core are integral);
* `DATETIME` values are `Nat` timestamps supplied by the caller;
* SQLite runs with foreign-key enforcement off (the `better-sqlite3`
  default, and the code never issues `PRAGMA foreign_keys = ON`), so an
  `INSERT INTO transactions` referencing a missing user succeeds;
* `Math.random()`-drawn values are explicit oracle parameters;
* an Express route that answers `{success: false}` without touching the
  database is an `Except.error` result, leaving the state unchanged.
-/

namespace CashByKing

/-- The `type` column of the `transactions` table. -/
inductive TxnType where
  | task_reward
  | referral
  | daily_checkin
  | telegram_join
  | admin_credit
  | admin_debit
  | withdrawal
deriving DecidableEq

/-- A row of the `transactions` table.  `amount` is the stored magnitude:
`userDb.updateBalance` inserts `Math.abs(amount)`. -/
structure Txn where
  userId : Nat
  ty : TxnType
  amount : Int
  reason : String
deriving DecidableEq

/-- The `status` column of `pending_tasks` and `withdrawals`. -/
inductive RStatus where
  | pending
  | approved
  | rejected
deriving DecidableEq

/-- A row of the `users` table (the columns the core reads or writes). -/
structure User where
  id : Nat
  balance : Int
  referrerId : Option Nat
  firstTaskCompleted : Bool
  upiLocked : Bool
  registeredUpi : String
  upi : String
  banned : Bool
  referralCode : String
deriving DecidableEq

/-- A row of the `pending_tasks` table. -/
structure PendingTask where
  id : Nat
  userId : Nat
  taskId : Nat
  status : RStatus
  customReason : String
deriving DecidableEq

/-- A row of the `referrals` table. -/
structure Referral where
  referrerId : Nat
  referredId : Nat
  rewardAmount : Int
deriving DecidableEq

/-- A row of the `withdrawals` table. -/
structure Withdrawal where
  id : Nat
  userId : Nat
  amount : Int
  paymentMethod : String
  paymentDetails : String
  status : RStatus
  requestDate : Nat
  processDate : Option Nat
  adminNotes : String
deriving DecidableEq

/-- A row of the `daily_checkin` table. -/
structure Checkin where
  userId : Nat
  day : Nat
  amount : Int
  claimedAt : Nat
deriving DecidableEq

/-- The whole database. `completed_tasks` rows are their `(user_id, task_id)`
pairs (the only columns the core consults). -/
structure DB where
  users : List User
  transactions : List Txn
  pendingTasks : List PendingTask
  completedTasks : List (Nat × Nat)
  referrals : List Referral
  withdrawals : List Withdrawal
  checkins : List Checkin
deriving DecidableEq

instance exceptDecEq {ε α : Type} [DecidableEq ε] [DecidableEq α] :
    DecidableEq (Except ε α) := fun x y =>
  match x, y with
  | .ok a, .ok b =>
    if h : a = b then .isTrue (h ▸ rfl) else .isFalse (fun hc => h (by injection hc))
  | .error a, .error b =>
    if h : a = b then .isTrue (h ▸ rfl) else .isFalse (fun hc => h (by injection hc))
  | .ok _, .error _ => .isFalse (fun hc => Except.noConfusion hc)
  | .error _, .ok _ => .isFalse (fun hc => Except.noConfusion hc)

/-- `SELECT * FROM users WHERE id = ?` (`userDb.findById`). -/
def findById (db : DB) (id : Nat) : Option User :=
  db.users.find? fun u => u.id == id

/-- The stored balance of a user, `0` when the row is absent. -/
def balanceOf (db : DB) (id : Nat) : Int :=
  ((findById db id).map User.balance).getD 0

namespace userDb

/-- `userDb.updateBalance`: `UPDATE users SET balance = balance + ? WHERE id = ?`
followed unconditionally by an `INSERT INTO transactions` storing
`Math.abs(amount)`.  No existence check is performed on the user. -/
def updateBalance (db : DB) (userId : Nat) (amount : Int) (ty : TxnType)
    (reason : String) : DB :=
  { db with
    users := db.users.map fun u =>
      if u.id == userId then { u with balance := u.balance + amount } else u
    transactions := db.transactions ++
      [{ userId := userId, ty := ty, amount := (amount.natAbs : Int), reason := reason }] }

/-- `userDb.lockUpi`:
`UPDATE users SET upi_locked = 1, registered_upi = ?, upi = ? WHERE id = ?`. -/
def lockUpi (db : DB) (userId : Nat) (upiId : String) : DB :=
  { db with
    users := db.users.map fun u =>
      if u.id == userId then
        { u with upiLocked := true, registeredUpi := upiId, upi := upiId }
      else u }

/-- `userDb.addBulkBonus`: loops over `SELECT id FROM users WHERE banned = 0`,
adding `amount` to each balance and inserting an `admin_credit` transaction of
`Math.abs(amount)` — the category is `admin_credit` regardless of the sign. -/
def addBulkBonus (db : DB) (amount : Int) (reason : String) : DB :=
  (db.users.filter fun u => !u.banned).foldl
    (fun acc u => updateBalance acc u.id amount .admin_credit reason) db

end userDb

namespace pendingTaskDb

/-- `pendingTaskDb.approve`: updates the submission's status with **no** check
that it is still pending, inserts the completed-task pair with
`INSERT OR IGNORE`, credits the task price, and then fires the
first-task-completion referral bonus when the user has a referrer and
`first_task_completed` is still 0. -/
def approve (db : DB) (pendingId userId taskId : Nat) (price : Int) : DB :=
  let db1 : DB := { db with
    pendingTasks := db.pendingTasks.map fun p =>
      if p.id == pendingId then { p with status := .approved } else p }
  let db2 : DB := { db1 with
    completedTasks :=
      if db1.completedTasks.contains (userId, taskId) then db1.completedTasks
      else db1.completedTasks ++ [(userId, taskId)] }
  let db3 : DB := userDb.updateBalance db2 userId price .task_reward
    "Task completed and approved"
  match findById db3 userId with
  | none => db3
  | some u =>
    match u.referrerId with
    | none => db3
    | some refId =>
      if u.firstTaskCompleted then db3
      else
        let db4 : DB := { db3 with
          users := db3.users.map fun v =>
            if v.id == userId then { v with firstTaskCompleted := true } else v }
        let db5 : DB := userDb.updateBalance db4 refId 15 .referral
          "Referral bonus (first task completed by referred user)"
        { db5 with
          referrals := db5.referrals.map fun rc =>
            if rc.referrerId == refId && rc.referredId == userId then
              { rc with rewardAmount := rc.rewardAmount + 15 }
            else rc }

/-- `pendingTaskDb.reject`: sets status `rejected` and the reason with **no**
check that the submission is still pending. -/
def reject (db : DB) (pendingId : Nat) (reason : String) : DB :=
  { db with
    pendingTasks := db.pendingTasks.map fun p =>
      if p.id == pendingId then { p with status := .rejected, customReason := reason }
      else p }

end pendingTaskDb

namespace referralDb

/-- The referral-row insert and the referred user's `referrer_id` update of
`referralDb.create`. -/
def createBase (db : DB) (referrerId referredId : Nat) (rewardAmount : Int) : DB :=
  { db with
    referrals := db.referrals ++
      [{ referrerId := referrerId, referredId := referredId, rewardAmount := rewardAmount }]
    users := db.users.map fun u =>
      if u.id == referredId then { u with referrerId := some referrerId } else u }

/-- `referralDb.create`: inserts the referral row, stores `referrer_id` on the
referred user, and credits the referrer when `rewardAmount > 0`. -/
def create (db : DB) (referrerId referredId : Nat) (rewardAmount : Int) : DB :=
  if rewardAmount > 0 then
    userDb.updateBalance (createBase db referrerId referredId rewardAmount)
      referrerId rewardAmount .referral "Referral bonus (instant ₹5)"
  else createBase db referrerId referredId rewardAmount

end referralDb

namespace checkinDb

/-- `checkinDb.getLastCheckin`:
`SELECT * FROM daily_checkin WHERE user_id = ? ORDER BY claimed_at DESC LIMIT 1`
(on equal timestamps the later-inserted row wins). -/
def getLastCheckin (db : DB) (userId : Nat) : Option Checkin :=
  (db.checkins.filter fun c => c.userId == userId).foldl
    (fun acc c =>
      match acc with
      | none => some c
      | some b => if b.claimedAt ≤ c.claimedAt then some c else some b)
    none

/-- `checkinDb.claim`: inserts the check-in row and credits the amount with
category `daily_checkin`. -/
def claim (db : DB) (userId day : Nat) (amount : Int) (now : Nat) : DB :=
  let db1 : DB := { db with
    checkins := db.checkins ++
      [{ userId := userId, day := day, amount := amount, claimedAt := now }] }
  userDb.updateBalance db1 userId amount .daily_checkin
    ("Day " ++ toString day ++ " daily check-in")

end checkinDb

namespace withdrawalDb

/-- `withdrawalDb.create`: inserts a `pending` withdrawal row. -/
def create (db : DB) (newId userId : Nat) (amount : Int)
    (paymentMethod paymentDetails : String) (now : Nat) : DB :=
  { db with
    withdrawals := db.withdrawals ++
      [{ id := newId, userId := userId, amount := amount,
         paymentMethod := paymentMethod, paymentDetails := paymentDetails,
         status := .pending, requestDate := now, processDate := none,
         adminNotes := "" }] }

/-- `withdrawalDb.getPendingTotalByUser`:
`SELECT COALESCE(SUM(amount), 0) FROM withdrawals WHERE user_id = ? AND status = 'pending'`. -/
def getPendingTotalByUser (db : DB) (userId : Nat) : Int :=
  ((db.withdrawals.filter fun w =>
      w.userId == userId && w.status == RStatus.pending).map Withdrawal.amount).sum

/-- `withdrawalDb.approve`: fetches the row, throws when absent or not
pending; otherwise runs the status-guarded `UPDATE`, debits the amount with
category `withdrawal`, and locks the UPI when the user is not yet locked.
(The `result.changes === 0` throw after the guarded update cannot fire in the
single-writer model: the row was just seen pending.) -/
def approve (db : DB) (withdrawalId : Nat) (adminNotes : String) (now : Nat) :
    Except String DB :=
  match db.withdrawals.find? (fun w => w.id == withdrawalId) with
  | none => .error "Withdrawal request not found"
  | some w =>
    if w.status ≠ RStatus.pending then .error "Withdrawal already processed"
    else
      let notes := if adminNotes == "" then "Approved by admin" else adminNotes
      let db1 : DB := { db with
        withdrawals := db.withdrawals.map fun x =>
          if x.id == withdrawalId && x.status == RStatus.pending then
            { x with status := .approved, processDate := some now, adminNotes := notes }
          else x }
      let db2 : DB := userDb.updateBalance db1 w.userId (-w.amount) .withdrawal
        "Withdrawal approved"
      let db3 : DB :=
        match findById db2 w.userId with
        | some u => if !u.upiLocked then userDb.lockUpi db2 w.userId w.paymentDetails else db2
        | none => db2
      .ok db3

/-- `withdrawalDb.reject`: fetches the row, throws when absent or not pending;
otherwise runs the status-guarded `UPDATE` to `rejected` with the defaulted
admin notes.  No balance effect. -/
def reject (db : DB) (withdrawalId : Nat) (adminNotes : String) (now : Nat) :
    Except String DB :=
  match db.withdrawals.find? (fun w => w.id == withdrawalId) with
  | none => .error "Withdrawal request not found"
  | some w =>
    if w.status ≠ RStatus.pending then .error "Can only reject pending withdrawals"
    else
      .ok { db with
        withdrawals := db.withdrawals.map fun x =>
          if x.id == withdrawalId && x.status == RStatus.pending then
            { x with
              status := .rejected, processDate := some now,
              adminNotes := if adminNotes == "" then "Rejected by admin" else adminNotes }
          else x }

end withdrawalDb

/-- `Char` uppercasing for the ASCII range, as JS `toUpperCase()` acts on the
referral-code alphabet (`A`-`Z`, `2`-`9`). -/
def upperChar (c : Char) : Char :=
  if c.isLower then Char.ofNat (c.toNat - 32) else c

/-- JS `inviteCode.toUpperCase()` on ASCII invite codes. -/
def asciiUpper (s : String) : String := ⟨s.data.map upperChar⟩

/-- The fresh user row inserted by `userDb.create` during signup: zero
balance, nothing completed, locked or banned, no referrer. -/
def newSignupUser (newId : Nat) (upi referralCode : String) : User :=
  { id := newId, balance := 0, referrerId := none, firstTaskCompleted := false,
    upiLocked := false, registeredUpi := "", upi := upi, banned := false,
    referralCode := referralCode }

namespace server

/-- The failures of `POST /api/wallet/withdraw`. -/
inductive WithdrawError where
  | allFieldsRequired
  | belowMinimum
  | insufficientBalance (pendingTotal : Int)
deriving DecidableEq

/-- `POST /api/wallet/withdraw` for the authenticated `user` (fetched by
`requireAuth`).  The JS guard `!amount || !paymentMethod || !paymentDetails`
is falsiness: for a numeric amount it trips exactly on `0`, for the strings on
`""`.  Then `amount < 50` answers the minimum-threshold message, then the
available-balance check `amount > req.user.balance - pendingTotal`. -/
def requestWithdrawal (db : DB) (user : User) (amount : Int)
    (paymentMethod paymentDetails : String) (newId now : Nat) :
    Except WithdrawError DB :=
  if amount == 0 || paymentMethod == "" || paymentDetails == "" then
    .error .allFieldsRequired
  else if amount < 50 then .error .belowMinimum
  else
    let pendingTotal := withdrawalDb.getPendingTotalByUser db user.id
    let availableBalance := user.balance - pendingTotal
    if amount > availableBalance then .error (.insufficientBalance pendingTotal)
    else .ok (withdrawalDb.create db newId user.id amount paymentMethod paymentDetails now)

/-- `POST /api/checkin/claim`: cooldown and day computation from the most
recent check-in, then `checkinDb.claim`.  `rand` is the `Math.random()` draw:
`Math.floor(Math.random() * 10) + 1 = rand + 1`.  Returns the new state, the
amount and the day. -/
def claimCheckin (db : DB) (userId : Nat) (now : Nat) (rand : Fin 10) :
    Except String (DB × Int × Nat) :=
  match checkinDb.getLastCheckin db userId with
  | none =>
      let amount : Int := (rand : Nat) + 1
      .ok (checkinDb.claim db userId 1 amount now, amount, 1)
  | some lc =>
      if now - lc.claimedAt < 24 * 3600000 then
        .error "You can claim again after 24 hours!"
      else
        let nextDay := if lc.day ≥ 7 then 1 else lc.day + 1
        let amount : Int := (rand : Nat) + 1
        .ok (checkinDb.claim db userId nextDay amount now, amount, nextDay)

/-- `POST /api/admin/user/balance`: the transaction category is chosen by the
sign of the amount (`admin_credit` when positive, `admin_debit` otherwise). -/
def adminAdjustBalance (db : DB) (userId : Nat) (amount : Int) (reason : String) : DB :=
  userDb.updateBalance db userId amount
    (if amount > 0 then .admin_credit else .admin_debit)
    (if reason == "" then "Admin adjustment" else reason)

/-- `POST /api/auth/signup` after its field and uniqueness validations pass:
the user row is inserted (balance 0, no referrer, nothing completed or
locked), then the invite-code step runs.  An absent invite code is the empty
string (the JS falsiness check `if (inviteCode)`); the lookup uppercases the
code, and the referral is skipped silently unless the code belongs to an
existing, non-banned user other than the new one. -/
def signup (db : DB) (newId : Nat) (upi referralCode inviteCode : String) : DB :=
  let db1 : DB := { db with users := db.users ++ [newSignupUser newId upi referralCode] }
  if inviteCode == "" then db1
  else
    match db1.users.find? (fun u => u.referralCode == asciiUpper inviteCode) with
    | none => db1
    | some referrer =>
      if referrer.id != newId && !referrer.banned then
        referralDb.create db1 referrer.id newId 5
      else db1

end server

/-- `POST /api/wallet/withdraw` as a state step: `requireAuth` fetches the
user row; an error response leaves the database unchanged. -/
def runRequestWithdrawal (db : DB) (userId : Nat) (amount : Int)
    (method details : String) (newId now : Nat) : DB :=
  match findById db userId with
  | none => db
  | some u =>
    match server.requestWithdrawal db u amount method details newId now with
    | .ok d => d
    | .error _ => db

/-- `POST /api/admin/withdrawals/approve` as a state step: a thrown error is
caught by the route and leaves the database unchanged. -/
def runApproveWithdrawal (db : DB) (withdrawalId : Nat) (notes : String) (now : Nat) : DB :=
  match withdrawalDb.approve db withdrawalId notes now with
  | .ok d => d
  | .error _ => db

/-- `POST /api/admin/withdrawals/reject` as a state step. -/
def runRejectWithdrawal (db : DB) (withdrawalId : Nat) (notes : String) (now : Nat) : DB :=
  match withdrawalDb.reject db withdrawalId notes now with
  | .ok d => d
  | .error _ => db

/-- `POST /api/checkin/claim` as a state step. -/
def runClaimCheckin (db : DB) (userId now : Nat) (rand : Fin 10) : DB :=
  match server.claimCheckin db userId now rand with
  | .ok (d, _, _) => d
  | .error _ => db

/-- The operations of the consistency core, as invoked by the routes. -/
inductive Op where
  | adjust (userId : Nat) (amount : Int) (reason : String)
  | bulkBonus (amount : Int) (reason : String)
  | approveTask (pendingId userId taskId : Nat) (price : Int)
  | rejectTask (pendingId : Nat) (reason : String)
  | signup (newId : Nat) (upi referralCode inviteCode : String)
  | claimCheckin (userId now : Nat) (rand : Fin 10)
  | requestWithdrawal (userId : Nat) (amount : Int) (method details : String) (newId now : Nat)
  | approveWithdrawal (withdrawalId : Nat) (notes : String) (now : Nat)
  | rejectWithdrawal (withdrawalId : Nat) (notes : String) (now : Nat)

/-- One state transition of the core. -/
def step (db : DB) : Op → DB
  | .adjust userId amount reason => server.adminAdjustBalance db userId amount reason
  | .bulkBonus amount reason => userDb.addBulkBonus db amount reason
  | .approveTask pendingId userId taskId price =>
      pendingTaskDb.approve db pendingId userId taskId price
  | .rejectTask pendingId reason => pendingTaskDb.reject db pendingId reason
  | .signup newId upi referralCode inviteCode =>
      server.signup db newId upi referralCode inviteCode
  | .claimCheckin userId now rand => runClaimCheckin db userId now rand
  | .requestWithdrawal userId amount method details newId now =>
      runRequestWithdrawal db userId amount method details newId now
  | .approveWithdrawal withdrawalId notes now =>
      runApproveWithdrawal db withdrawalId notes now
  | .rejectWithdrawal withdrawalId notes now =>
      runRejectWithdrawal db withdrawalId notes now

/-- The side conditions under which an operation keeps the stored balances in
step with the ledger: a task approval must carry a nonnegative price and a
bulk bonus a nonnegative amount (both are recorded as crediting categories of
the absolute value), and a signup's fresh `AUTOINCREMENT` id is referenced by
no existing transaction. -/
def opSafe (db : DB) : Op → Prop
  | .approveTask _ _ _ price => 0 ≤ price
  | .bulkBonus amount _ => 0 ≤ amount
  | .signup newId _ _ _ => ∀ t ∈ db.transactions, t.userId ≠ newId
  | _ => True

/-- The request body of `POST /api/admin/pending-tasks/approve`. -/
structure ApproveArgs where
  pendingId : Nat
  userId : Nat
  taskId : Nat
  price : Int
deriving DecidableEq

/-- A sequence of task approvals. -/
def approveList (db : DB) (L : List ApproveArgs) : DB :=
  L.foldl (fun acc a => pendingTaskDb.approve acc a.pendingId a.userId a.taskId a.price) db

/-- The number of referral rows of a `(referrer, referred)` pair. -/
def referralRowCount (db : DB) (r n : Nat) : Nat :=
  (db.referrals.filter fun rc => rc.referrerId == r && rc.referredId == n).length

/-- The sign a transaction contributes to the reconstructed balance: its
category indicates the direction (`withdrawal` and `admin_debit` are the
debiting categories), the stored `amount` is the magnitude. -/
def signedAmount (t : Txn) : Int :=
  match t.ty with
  | .withdrawal => -t.amount
  | .admin_debit => -t.amount
  | _ => t.amount

/-- The signed sum of a user's ledger entries. -/
def ledgerSum (db : DB) (userId : Nat) : Int :=
  ((db.transactions.filter fun t => t.userId == userId).map signedAmount).sum

/-- The auditability invariant: every stored balance equals the signed sum of
that user's transaction records. -/
def ledgerInv (db : DB) : Prop :=
  ∀ u ∈ db.users, u.balance = ledgerSum db u.id

/-- Every withdrawal row has a positive amount (the schema's
`CHECK(amount > 0)` constraint on the `withdrawals` table). -/
def withdrawalsPos (db : DB) : Prop :=
  ∀ w ∈ db.withdrawals, 0 < w.amount

instance (db : DB) : Decidable (ledgerInv db) := by
  unfold ledgerInv; infer_instance

instance (db : DB) : Decidable (withdrawalsPos db) := by
  unfold withdrawalsPos; infer_instance

/-- `SELECT * FROM withdrawals WHERE id = ?`. -/
def getWithdrawal (db : DB) (id : Nat) : Option Withdrawal :=
  db.withdrawals.find? fun w => w.id == id

/-- `first_task_completed` of a user, when the row exists. -/
def flagOf (db : DB) (id : Nat) : Option Bool :=
  (findById db id).map User.firstTaskCompleted

/-- `referrer_id` of a user, when the row exists. -/
def refOf (db : DB) (id : Nat) : Option (Option Nat) :=
  (findById db id).map User.referrerId

/-- `upi_locked` of a user, when the row exists. -/
def lockedOf (db : DB) (id : Nat) : Option Bool :=
  (findById db id).map User.upiLocked

/-- `registered_upi` of a user, when the row exists. -/
def regUpiOf (db : DB) (id : Nat) : Option String :=
  (findById db id).map User.registeredUpi

/-- The active `upi` field of a user, when the row exists. -/
def upiOf (db : DB) (id : Nat) : Option String :=
  (findById db id).map User.upi

/-- Cumulative `reward_amount` over the referral rows of a
`(referrer, referred)` pair. -/
def rewardSum (db : DB) (referrerId referredId : Nat) : Int :=
  ((db.referrals.filter fun rc =>
      rc.referrerId == referrerId && rc.referredId == referredId).map
    Referral.rewardAmount).sum

/-- The number of `referral`-category ledger entries of a user. -/
def refTxnCount (db : DB) (id : Nat) : Nat :=
  (db.transactions.filter fun t => t.userId == id && t.ty == TxnType.referral).length

/-! ### Helper lemmas -/

theorem find?_map_pres {α : Type} (f : α → α) (p : α → Bool)
    (hp : ∀ a, p (f a) = p a) :
    ∀ l : List α, (l.map f).find? p = (l.find? p).map f := by
  intro l
  induction l with
  | nil => rfl
  | cons a t ih =>
    by_cases h : p a = true
    · simp [List.find?, hp, h]
    · simp only [Bool.not_eq_true] at h
      simp [List.find?, hp, h, ih]

theorem find?_id_update (l : List User) (x : Nat) (g : User → User)
    (hg : ∀ u, (g u).id = u.id) (y : Nat) :
    (l.map fun u => if u.id == x then g u else u).find? (fun u => u.id == y)
      = (l.find? fun u => u.id == y).map fun u => if u.id == x then g u else u := by
  apply find?_map_pres
  intro u
  by_cases h : u.id == x <;> simp [h, hg]

theorem find?_append_some {α : Type} (l₁ l₂ : List α) (p : α → Bool) (a : α)
    (h : l₁.find? p = some a) : (l₁ ++ l₂).find? p = some a := by
  induction l₁ with
  | nil => simp [List.find?] at h
  | cons x t ih =>
    cases hx : p x with
    | true =>
      rw [List.find?] at h
      rw [hx] at h
      simpa [List.find?, hx] using h
    | false =>
      rw [List.find?] at h
      rw [hx] at h
      simpa [List.find?, hx] using ih h

theorem find?_append_none {α : Type} (l₁ l₂ : List α) (p : α → Bool)
    (h : l₁.find? p = none) : (l₁ ++ l₂).find? p = l₂.find? p := by
  induction l₁ with
  | nil => rfl
  | cons x t ih =>
    cases hx : p x with
    | true =>
      rw [List.find?] at h
      rw [hx] at h
      exact absurd h (by simp)
    | false =>
      rw [List.find?] at h
      rw [hx] at h
      simpa [List.find?, hx] using ih h

theorem find?_isSome_of_mem {α : Type} (l : List α) (p : α → Bool) (a : α)
    (ha : a ∈ l) (hp : p a = true) : (l.find? p).isSome = true := by
  induction l with
  | nil => cases ha
  | cons x t ih =>
    cases hx : p x with
    | true => simp [List.find?, hx]
    | false =>
      rcases List.mem_cons.mp ha with h1 | h2
      · subst h1
        rw [hp] at hx
        cases hx
      · simpa [List.find?, hx] using ih h2

theorem findById_some (db : DB) (y : Nat) (u : User) (h : findById db y = some u) :
    u.id = y := by
  unfold findById at h
  have h2 := List.find?_some h
  simpa using h2

theorem proj_update_eq {β : Type} (proj : User → β) (g : User → User)
    (hpg : ∀ u, proj (g u) = proj u) (x : Nat) (o : Option User) :
    (o.map fun u => if u.id == x then g u else u).map proj = o.map proj := by
  cases o with
  | none => rfl
  | some u =>
    show some (proj (if u.id == x then g u else u)) = some (proj u)
    by_cases h : (u.id == x) = true <;> simp [h, hpg]

theorem findById_updateBalance (db : DB) (uid : Nat) (a : Int) (ty : TxnType)
    (r : String) (y : Nat) :
    findById (userDb.updateBalance db uid a ty r) y
      = (findById db y).map fun u =>
          if u.id == uid then { u with balance := u.balance + a } else u := by
  exact find?_id_update db.users uid
    (fun u => { u with balance := u.balance + a }) (fun u => rfl) y

theorem balanceOf_updateBalance_self (db : DB) (uid : Nat) (a : Int) (ty : TxnType)
    (r : String) (h : (findById db uid).isSome) :
    balanceOf (userDb.updateBalance db uid a ty r) uid = balanceOf db uid + a := by
  unfold balanceOf
  rw [findById_updateBalance]
  match hfind : findById db uid with
  | none => rw [hfind] at h; simp at h
  | some u =>
    have hu : u.id = uid := findById_some db uid u hfind
    simp [hu]

theorem balanceOf_updateBalance_ne (db : DB) (uid : Nat) (a : Int) (ty : TxnType)
    (r : String) (y : Nat) (h : y ≠ uid) :
    balanceOf (userDb.updateBalance db uid a ty r) y = balanceOf db y := by
  unfold balanceOf
  rw [findById_updateBalance]
  match hfind : findById db y with
  | none => simp
  | some u =>
    have hu : u.id = y := findById_some db y u hfind
    have hne : ¬ u.id = uid := by omega
    simp [hne]

theorem isSome_findById_updateBalance (db : DB) (uid : Nat) (a : Int) (ty : TxnType)
    (r : String) (y : Nat) :
    (findById (userDb.updateBalance db uid a ty r) y).isSome = (findById db y).isSome := by
  rw [findById_updateBalance]
  cases findById db y <;> rfl

theorem flagOf_updateBalance (db : DB) (uid : Nat) (a : Int) (ty : TxnType)
    (r : String) (y : Nat) :
    flagOf (userDb.updateBalance db uid a ty r) y = flagOf db y := by
  unfold flagOf
  rw [findById_updateBalance]
  exact proj_update_eq User.firstTaskCompleted
    (fun u => { u with balance := u.balance + a }) (fun u => rfl) uid (findById db y)

theorem refOf_updateBalance (db : DB) (uid : Nat) (a : Int) (ty : TxnType)
    (r : String) (y : Nat) :
    refOf (userDb.updateBalance db uid a ty r) y = refOf db y := by
  unfold refOf
  rw [findById_updateBalance]
  exact proj_update_eq User.referrerId
    (fun u => { u with balance := u.balance + a }) (fun u => rfl) uid (findById db y)

theorem lockedOf_updateBalance (db : DB) (uid : Nat) (a : Int) (ty : TxnType)
    (r : String) (y : Nat) :
    lockedOf (userDb.updateBalance db uid a ty r) y = lockedOf db y := by
  unfold lockedOf
  rw [findById_updateBalance]
  exact proj_update_eq User.upiLocked
    (fun u => { u with balance := u.balance + a }) (fun u => rfl) uid (findById db y)

theorem regUpiOf_updateBalance (db : DB) (uid : Nat) (a : Int) (ty : TxnType)
    (r : String) (y : Nat) :
    regUpiOf (userDb.updateBalance db uid a ty r) y = regUpiOf db y := by
  unfold regUpiOf
  rw [findById_updateBalance]
  exact proj_update_eq User.registeredUpi
    (fun u => { u with balance := u.balance + a }) (fun u => rfl) uid (findById db y)

theorem ledgerSum_updateBalance (db : DB) (uid : Nat) (a : Int) (ty : TxnType)
    (r : String) (y : Nat) :
    ledgerSum (userDb.updateBalance db uid a ty r) y
      = ledgerSum db y +
          (if uid = y then
            signedAmount { userId := uid, ty := ty, amount := (a.natAbs : Int), reason := r }
          else 0) := by
  unfold ledgerSum userDb.updateBalance
  simp only [List.filter_append, List.map_append, List.sum_append]
  by_cases h : uid = y
  · have hb : (uid == y) = true := by simp [h]
    simp [List.filter, hb, h]
  · have hb : (uid == y) = false := by simp [h]
    simp [List.filter, hb, h]

theorem rewardSum_updateBalance (db : DB) (uid : Nat) (a : Int) (ty : TxnType)
    (r : String) (x y : Nat) :
    rewardSum (userDb.updateBalance db uid a ty r) x y = rewardSum db x y := rfl

theorem refTxnCount_updateBalance (db : DB) (uid : Nat) (a : Int) (ty : TxnType)
    (r : String) (y : Nat) :
    refTxnCount (userDb.updateBalance db uid a ty r) y
      = refTxnCount db y +
          (if uid = y ∧ ty = TxnType.referral then 1 else 0) := by
  unfold refTxnCount userDb.updateBalance
  simp only [List.filter_append, List.length_append]
  by_cases h1 : uid = y
  · by_cases h2 : ty = TxnType.referral
    · have hb : (uid == y && (ty == TxnType.referral)) = true := by simp [h1, h2]
      simp [List.filter, hb, h1, h2]
    · have hb : (ty == TxnType.referral) = false := by simp [h2]
      simp [List.filter, hb, h1, h2]
  · have hb : (uid == y && (ty == TxnType.referral)) = false := by simp [h1]
    simp [List.filter, hb, h1]

theorem findById_lockUpi (db : DB) (uid : Nat) (s : String) (y : Nat) :
    findById (userDb.lockUpi db uid s) y
      = (findById db y).map fun u =>
          if u.id == uid then { u with upiLocked := true, registeredUpi := s, upi := s }
          else u := by
  exact find?_id_update db.users uid
    (fun u => { u with upiLocked := true, registeredUpi := s, upi := s }) (fun u => rfl) y

theorem balanceOf_lockUpi (db : DB) (uid : Nat) (s : String) (y : Nat) :
    balanceOf (userDb.lockUpi db uid s) y = balanceOf db y := by
  unfold balanceOf
  rw [findById_lockUpi]
  rw [proj_update_eq User.balance
    (fun u => { u with upiLocked := true, registeredUpi := s, upi := s })
    (fun u => rfl) uid (findById db y)]

theorem lockedOf_lockUpi_ne (db : DB) (uid : Nat) (s : String) (y : Nat) (h : y ≠ uid) :
    lockedOf (userDb.lockUpi db uid s) y = lockedOf db y := by
  unfold lockedOf
  rw [findById_lockUpi]
  match hfind : findById db y with
  | none => rfl
  | some u =>
    have hu : u.id = y := findById_some db y u hfind
    have hne : ¬ u.id = uid := by omega
    simp [hne]

theorem regUpiOf_lockUpi_ne (db : DB) (uid : Nat) (s : String) (y : Nat) (h : y ≠ uid) :
    regUpiOf (userDb.lockUpi db uid s) y = regUpiOf db y := by
  unfold regUpiOf
  rw [findById_lockUpi]
  match hfind : findById db y with
  | none => rfl
  | some u =>
    have hu : u.id = y := findById_some db y u hfind
    have hne : ¬ u.id = uid := by omega
    simp [hne]

/-- The status update and ignore-on-conflict completed-task insert of
`pendingTaskDb.approve`. -/
def approveMarked (db : DB) (pendingId userId taskId : Nat) : DB :=
  { db with
    pendingTasks := db.pendingTasks.map fun p =>
      if p.id == pendingId then { p with status := .approved } else p
    completedTasks :=
      if db.completedTasks.contains (userId, taskId) then db.completedTasks
      else db.completedTasks ++ [(userId, taskId)] }

/-- The unconditional part of `pendingTaskDb.approve`: status update,
completed-task insert, and the task-price credit. -/
def approveBase (db : DB) (pendingId userId taskId : Nat) (price : Int) : DB :=
  userDb.updateBalance (approveMarked db pendingId userId taskId) userId price
    .task_reward "Task completed and approved"

/-- The `UPDATE users SET first_task_completed = 1 WHERE id = ?` step. -/
def setFirstTaskCompleted (db : DB) (userId : Nat) : DB :=
  { db with
    users := db.users.map fun v =>
      if v.id == userId then { v with firstTaskCompleted := true } else v }

/-- Flag set plus the referrer's 15-credit. -/
def bonusCredited (db : DB) (userId refId : Nat) : DB :=
  userDb.updateBalance (setFirstTaskCompleted db userId) refId 15 .referral
    "Referral bonus (first task completed by referred user)"

/-- The first-task-completion bonus branch of `pendingTaskDb.approve`. -/
def bonusApply (db : DB) (userId refId : Nat) : DB :=
  { bonusCredited db userId refId with
    referrals := (bonusCredited db userId refId).referrals.map fun rc =>
      if rc.referrerId == refId && rc.referredId == userId then
        { rc with rewardAmount := rc.rewardAmount + 15 }
      else rc }

theorem approve_unfold (db : DB) (pendingId userId taskId : Nat) (price : Int) :
    pendingTaskDb.approve db pendingId userId taskId price
      = (match findById (approveBase db pendingId userId taskId price) userId with
        | none => approveBase db pendingId userId taskId price
        | some u =>
          match u.referrerId with
          | none => approveBase db pendingId userId taskId price
          | some refId =>
            if u.firstTaskCompleted then approveBase db pendingId userId taskId price
            else bonusApply (approveBase db pendingId userId taskId price) userId refId) := rfl

theorem findById_approveBase (db : DB) (pendingId userId taskId : Nat) (price : Int)
    (y : Nat) :
    findById (approveBase db pendingId userId taskId price) y
      = (findById db y).map fun u =>
          if u.id == userId then { u with balance := u.balance + price } else u :=
  findById_updateBalance _ userId price .task_reward _ y

theorem transactions_approveBase (db : DB) (pendingId userId taskId : Nat) (price : Int) :
    (approveBase db pendingId userId taskId price).transactions
      = db.transactions ++
        [{ userId := userId, ty := .task_reward, amount := (price.natAbs : Int),
           reason := "Task completed and approved" }] := rfl

theorem referrals_approveBase (db : DB) (pendingId userId taskId : Nat) (price : Int) :
    (approveBase db pendingId userId taskId price).referrals = db.referrals := rfl

theorem find?_wid_update (l : List Withdrawal) (x : Nat) (g : Withdrawal → Withdrawal)
    (hg : ∀ w, (g w).id = w.id) (y : Nat) :
    (l.map fun w => if w.id == x && w.status == RStatus.pending then g w else w).find?
        (fun w => w.id == y)
      = (l.find? fun w => w.id == y).map fun w =>
          if w.id == x && w.status == RStatus.pending then g w else w := by
  apply find?_map_pres
  intro w
  by_cases h : (w.id == x && w.status == RStatus.pending) = true <;> simp [h, hg]

/-- The status-guarded `UPDATE` of `withdrawalDb.approve`. -/
def approveStatusUpd (db : DB) (withdrawalId : Nat) (notes : String) (now : Nat) : DB :=
  { db with
    withdrawals := db.withdrawals.map fun x =>
      if x.id == withdrawalId && x.status == RStatus.pending then
        { x with status := .approved, processDate := some now, adminNotes := notes }
      else x }

/-- Status update plus the ledger debit of `withdrawalDb.approve`. -/
def approveWDebited (db : DB) (w : Withdrawal) (withdrawalId : Nat) (notes : String)
    (now : Nat) : DB :=
  userDb.updateBalance (approveStatusUpd db withdrawalId notes now) w.userId
    (-w.amount) .withdrawal "Withdrawal approved"

/-- The success branch of `withdrawalDb.approve`, with `w` the row that was
fetched and found pending and `notes` the defaulted admin notes. -/
def approveWApplied (db : DB) (w : Withdrawal) (withdrawalId : Nat) (notes : String)
    (now : Nat) : DB :=
  match findById (approveWDebited db w withdrawalId notes now) w.userId with
  | some u =>
    if !u.upiLocked then
      userDb.lockUpi (approveWDebited db w withdrawalId notes now) w.userId
        w.paymentDetails
    else approveWDebited db w withdrawalId notes now
  | none => approveWDebited db w withdrawalId notes now

theorem approveW_unfold (db : DB) (withdrawalId : Nat) (adminNotes : String) (now : Nat) :
    withdrawalDb.approve db withdrawalId adminNotes now
      = (match db.withdrawals.find? (fun w => w.id == withdrawalId) with
        | none => .error "Withdrawal request not found"
        | some w =>
          if w.status ≠ RStatus.pending then .error "Withdrawal already processed"
          else
            .ok (approveWApplied db w withdrawalId
              (if adminNotes == "" then "Approved by admin" else adminNotes) now)) := rfl

theorem withdrawals_approveWApplied (db : DB) (w : Withdrawal) (wId : Nat)
    (notes : String) (now : Nat) :
    (approveWApplied db w wId notes now).withdrawals
      = (approveStatusUpd db wId notes now).withdrawals := by
  unfold approveWApplied
  split
  · split <;> rfl
  · rfl

theorem transactions_approveWApplied (db : DB) (w : Withdrawal) (wId : Nat)
    (notes : String) (now : Nat) :
    (approveWApplied db w wId notes now).transactions
      = db.transactions ++
        [{ userId := w.userId, ty := .withdrawal, amount := (((-w.amount).natAbs : Nat) : Int),
           reason := "Withdrawal approved" }] := by
  unfold approveWApplied
  split
  · split <;> rfl
  · rfl

theorem balanceOf_approveWApplied (db : DB) (w : Withdrawal) (wId : Nat)
    (notes : String) (now : Nat) (y : Nat) :
    balanceOf (approveWApplied db w wId notes now) y
      = balanceOf (approveWDebited db w wId notes now) y := by
  unfold approveWApplied
  split
  · split
    · exact balanceOf_lockUpi _ _ _ y
    · rfl
  · rfl

theorem balanceOf_approveWDebited_self (db : DB) (w : Withdrawal) (wId : Nat)
    (notes : String) (now : Nat) (h : (findById db w.userId).isSome) :
    balanceOf (approveWDebited db w wId notes now) w.userId
      = balanceOf db w.userId - w.amount := by
  unfold approveWDebited
  have hs : (findById (approveStatusUpd db wId notes now) w.userId).isSome := h
  rw [balanceOf_updateBalance_self _ _ _ _ _ hs]
  have hb : balanceOf (approveStatusUpd db wId notes now) w.userId
      = balanceOf db w.userId := rfl
  rw [hb]
  omega

theorem findById_approveWDebited (db : DB) (w : Withdrawal) (wId : Nat)
    (notes : String) (now : Nat) (y : Nat) :
    findById (approveWDebited db w wId notes now) y
      = (findById db y).map fun u =>
          if u.id == w.userId then { u with balance := u.balance + (-w.amount) } else u := by
  unfold approveWDebited
  rw [findById_updateBalance]
  rfl

theorem approveWApplied_of_unlocked (db : DB) (w : Withdrawal) (wId : Nat)
    (notes : String) (now : Nat) (u : User)
    (hu : findById db w.userId = some u) (hl : u.upiLocked = false) :
    approveWApplied db w wId notes now
      = userDb.lockUpi (approveWDebited db w wId notes now) w.userId w.paymentDetails := by
  have hid : u.id = w.userId := findById_some db w.userId u hu
  have hcond : (u.id == w.userId) = true := by simp [hid]
  have hD : findById (approveWDebited db w wId notes now) w.userId
      = some { u with balance := u.balance + (-w.amount) } := by
    rw [findById_approveWDebited, hu]
    show some (if u.id == w.userId then { u with balance := u.balance + (-w.amount) } else u)
      = some { u with balance := u.balance + (-w.amount) }
    rw [if_pos hcond]
  unfold approveWApplied
  rw [hD]
  show (if !({ u with balance := u.balance + (-w.amount) } : User).upiLocked then
        userDb.lockUpi (approveWDebited db w wId notes now) w.userId w.paymentDetails
      else approveWDebited db w wId notes now)
    = userDb.lockUpi (approveWDebited db w wId notes now) w.userId w.paymentDetails
  have hb : (!({ u with balance := u.balance + (-w.amount) } : User).upiLocked) = true := by
    show (!u.upiLocked) = true
    rw [hl]
    rfl
  rw [if_pos hb]

theorem approveWApplied_of_locked (db : DB) (w : Withdrawal) (wId : Nat)
    (notes : String) (now : Nat) (u : User)
    (hu : findById db w.userId = some u) (hl : u.upiLocked = true) :
    approveWApplied db w wId notes now = approveWDebited db w wId notes now := by
  have hid : u.id = w.userId := findById_some db w.userId u hu
  have hcond : (u.id == w.userId) = true := by simp [hid]
  have hD : findById (approveWDebited db w wId notes now) w.userId
      = some { u with balance := u.balance + (-w.amount) } := by
    rw [findById_approveWDebited, hu]
    show some (if u.id == w.userId then { u with balance := u.balance + (-w.amount) } else u)
      = some { u with balance := u.balance + (-w.amount) }
    rw [if_pos hcond]
  unfold approveWApplied
  rw [hD]
  show (if !({ u with balance := u.balance + (-w.amount) } : User).upiLocked then
        userDb.lockUpi (approveWDebited db w wId notes now) w.userId w.paymentDetails
      else approveWDebited db w wId notes now)
    = approveWDebited db w wId notes now
  have hb : ¬ ((!({ u with balance := u.balance + (-w.amount) } : User).upiLocked) = true) := by
    show ¬ ((!u.upiLocked) = true)
    rw [hl]
    simp
  rw [if_neg hb]

theorem lockedOf_approveWDebited (db : DB) (w : Withdrawal) (wId : Nat)
    (notes : String) (now : Nat) (y : Nat) :
    lockedOf (approveWDebited db w wId notes now) y = lockedOf db y := by
  unfold approveWDebited
  rw [lockedOf_updateBalance]
  rfl

theorem regUpiOf_approveWDebited (db : DB) (w : Withdrawal) (wId : Nat)
    (notes : String) (now : Nat) (y : Nat) :
    regUpiOf (approveWDebited db w wId notes now) y = regUpiOf db y := by
  unfold approveWDebited
  rw [regUpiOf_updateBalance]
  rfl

theorem lockedOf_approveWApplied_ne (db : DB) (w : Withdrawal) (wId : Nat)
    (notes : String) (now : Nat) (y : Nat) (hy : y ≠ w.userId) :
    lockedOf (approveWApplied db w wId notes now) y = lockedOf db y := by
  unfold approveWApplied
  split
  · split
    · rw [lockedOf_lockUpi_ne _ _ _ _ hy]
      exact lockedOf_approveWDebited db w wId notes now y
    · exact lockedOf_approveWDebited db w wId notes now y
  · exact lockedOf_approveWDebited db w wId notes now y

theorem regUpiOf_approveWApplied_ne (db : DB) (w : Withdrawal) (wId : Nat)
    (notes : String) (now : Nat) (y : Nat) (hy : y ≠ w.userId) :
    regUpiOf (approveWApplied db w wId notes now) y = regUpiOf db y := by
  unfold approveWApplied
  split
  · split
    · rw [regUpiOf_lockUpi_ne _ _ _ _ hy]
      exact regUpiOf_approveWDebited db w wId notes now y
    · exact regUpiOf_approveWDebited db w wId notes now y
  · exact regUpiOf_approveWDebited db w wId notes now y

theorem findById_approveWDebited_self (db : DB) (w : Withdrawal) (wId : Nat)
    (notes : String) (now : Nat) (u : User) (hu : findById db w.userId = some u) :
    findById (approveWDebited db w wId notes now) w.userId
      = some { u with balance := u.balance + (-w.amount) } := by
  have hid : u.id = w.userId := findById_some db w.userId u hu
  have hcond : (u.id == w.userId) = true := by simp [hid]
  rw [findById_approveWDebited, hu]
  show some (if u.id == w.userId then { u with balance := u.balance + (-w.amount) } else u)
    = some { u with balance := u.balance + (-w.amount) }
  rw [if_pos hcond]

theorem upiFields_lockUpi_self (db : DB) (uid : Nat) (s : String) (u : User)
    (hu : findById db uid = some u) :
    lockedOf (userDb.lockUpi db uid s) uid = some true ∧
    regUpiOf (userDb.lockUpi db uid s) uid = some s ∧
    upiOf (userDb.lockUpi db uid s) uid = some s := by
  have hid : u.id = uid := findById_some db uid u hu
  have hcond : (u.id == uid) = true := by simp [hid]
  have hL : findById (userDb.lockUpi db uid s) uid
      = some { u with upiLocked := true, registeredUpi := s, upi := s } := by
    rw [findById_lockUpi, hu]
    show some (if u.id == uid then { u with upiLocked := true, registeredUpi := s, upi := s }
        else u)
      = some { u with upiLocked := true, registeredUpi := s, upi := s }
    rw [if_pos hcond]
  refine ⟨?_, ?_, ?_⟩
  · unfold lockedOf
    rw [hL]
    rfl
  · unfold regUpiOf
    rw [hL]
    rfl
  · unfold upiOf
    rw [hL]
    rfl

theorem getWithdrawal_approveWApplied (db : DB) (w : Withdrawal) (wId : Nat)
    (notes : String) (now : Nat)
    (hw : getWithdrawal db wId = some w) (hp : w.status = RStatus.pending) :
    getWithdrawal (approveWApplied db w wId notes now) wId
      = some { w with status := .approved, processDate := some now, adminNotes := notes } := by
  have h1 : getWithdrawal (approveWApplied db w wId notes now) wId
      = getWithdrawal (approveStatusUpd db wId notes now) wId := by
    unfold getWithdrawal
    rw [withdrawals_approveWApplied]
  rw [h1]
  show (db.withdrawals.map fun x =>
      if x.id == wId && x.status == RStatus.pending then
        { x with status := .approved, processDate := some now, adminNotes := notes }
      else x).find? (fun x => x.id == wId)
    = some { w with status := .approved, processDate := some now, adminNotes := notes }
  rw [find?_wid_update db.withdrawals wId
    (fun x => { x with status := .approved, processDate := some now, adminNotes := notes })
    (fun x => rfl) wId]
  unfold getWithdrawal at hw
  rw [hw]
  have hid : (w.id == wId) = true := by
    have h2 := List.find?_some hw
    simpa using h2
  have hb : (w.id == wId && w.status == RStatus.pending) = true := by
    simp [hid, hp]
  show some (if w.id == wId && w.status == RStatus.pending then
      { w with status := .approved, processDate := some now, adminNotes := notes }
    else w)
    = some { w with status := .approved, processDate := some now, adminNotes := notes }
  rw [if_pos hb]

theorem ledgerInv_of_eq (db db' : DB) (hu : db'.users = db.users)
    (ht : db'.transactions = db.transactions) (hinv : ledgerInv db) : ledgerInv db' := by
  intro u hmem
  rw [hu] at hmem
  have hb := hinv u hmem
  unfold ledgerSum
  rw [ht]
  exact hb

theorem ledgerInv_updateBalance (db : DB) (uid : Nat) (a : Int) (ty : TxnType)
    (r : String) (hinv : ledgerInv db)
    (hsign : signedAmount { userId := uid, ty := ty, amount := (a.natAbs : Int), reason := r }
      = a) :
    ledgerInv (userDb.updateBalance db uid a ty r) := by
  intro u' hmem
  have hmem' : u' ∈ (db.users.map fun u =>
      if u.id == uid then { u with balance := u.balance + a } else u) := hmem
  simp only [List.mem_map] at hmem'
  obtain ⟨u, hu, rfl⟩ := hmem'
  rw [ledgerSum_updateBalance]
  by_cases h : u.id = uid
  · have hb : (u.id == uid) = true := by simp [h]
    simp only [hb, if_true]
    have hif : uid = ({ u with balance := u.balance + a } : User).id := by
      show uid = u.id
      omega
    rw [if_pos hif, hsign]
    show u.balance + a = ledgerSum db u.id + a
    rw [hinv u hu]
  · have hb : (u.id == uid) = false := by simp [h]
    simp only [hb, Bool.false_eq_true, if_false]
    have hif : ¬ uid = u.id := by omega
    rw [if_neg hif]
    have := hinv u hu
    omega

theorem ledgerInv_users_map (db : DB) (g : User → User)
    (hg : ∀ u, (g u).balance = u.balance ∧ (g u).id = u.id) (hinv : ledgerInv db) :
    ledgerInv { db with users := db.users.map g } := by
  intro u' hmem
  have hmem' : u' ∈ db.users.map g := hmem
  simp only [List.mem_map] at hmem'
  obtain ⟨u, hu, rfl⟩ := hmem'
  show (g u).balance = ledgerSum { db with users := db.users.map g } (g u).id
  rw [(hg u).1, (hg u).2]
  exact hinv u hu

theorem ledgerInv_creditFold (a : Int) (ty : TxnType) (reason : String)
    (hsign : ∀ uid,
      signedAmount { userId := uid, ty := ty, amount := (a.natAbs : Int), reason := reason }
        = a) :
    ∀ (l : List User) (db : DB), ledgerInv db →
      ledgerInv (l.foldl (fun acc u => userDb.updateBalance acc u.id a ty reason) db) := by
  intro l
  induction l with
  | nil => intro db hinv; exact hinv
  | cons u t ih =>
    intro db hinv
    simp only [List.foldl_cons]
    exact ih _ (ledgerInv_updateBalance db u.id a ty reason hinv (hsign u.id))

theorem signup_unfold (db : DB) (newId : Nat) (upi code invite : String) :
    server.signup db newId upi code invite
      = (if invite == "" then
          { db with users := db.users ++ [newSignupUser newId upi code] }
        else
          match (db.users ++ [newSignupUser newId upi code]).find?
              (fun u => u.referralCode == asciiUpper invite) with
          | none => { db with users := db.users ++ [newSignupUser newId upi code] }
          | some referrer =>
            if referrer.id != newId && !referrer.banned then
              referralDb.create
                { db with users := db.users ++ [newSignupUser newId upi code] }
                referrer.id newId 5
            else { db with users := db.users ++ [newSignupUser newId upi code] }) := rfl

theorem findById_createBase (db : DB) (r n : Nat) (amt : Int) (y : Nat) :
    findById (referralDb.createBase db r n amt) y
      = (findById db y).map fun u =>
          if u.id == n then { u with referrerId := some r } else u :=
  find?_id_update db.users n (fun u => { u with referrerId := some r }) (fun _ => rfl) y

theorem withdrawalsPos_of_eq (db db' : DB) (h : db'.withdrawals = db.withdrawals)
    (hw : withdrawalsPos db) : withdrawalsPos db' := by
  intro x hmem
  rw [h] at hmem
  exact hw x hmem

theorem withdrawalsPos_append (db : DB) (w : Withdrawal) (hw : withdrawalsPos db)
    (h : 0 < w.amount) :
    withdrawalsPos { db with withdrawals := db.withdrawals ++ [w] } := by
  intro x hmem
  have hmem' : x ∈ db.withdrawals ++ [w] := hmem
  rcases List.mem_append.mp hmem' with h1 | h2
  · exact hw x h1
  · have : x = w := by simpa using h2
    subst this
    exact h

theorem withdrawals_creditFold (a : Int) (ty : TxnType) (reason : String) :
    ∀ (l : List User) (db : DB),
      (l.foldl (fun acc u => userDb.updateBalance acc u.id a ty reason) db).withdrawals
        = db.withdrawals := by
  intro l
  induction l with
  | nil => intro db; rfl
  | cons u t ih =>
    intro db
    simp only [List.foldl_cons]
    rw [ih]
    rfl

theorem withdrawals_approveTask (db : DB) (pendingId userId taskId : Nat) (price : Int) :
    (pendingTaskDb.approve db pendingId userId taskId price).withdrawals
      = db.withdrawals := by
  rw [approve_unfold]
  split
  · rfl
  · split
    · rfl
    · split
      · rfl
      · rfl

theorem withdrawals_signup (db : DB) (newId : Nat) (upi code invite : String) :
    (server.signup db newId upi code invite).withdrawals = db.withdrawals := by
  rw [signup_unfold]
  split
  · rfl
  · split
    · rfl
    · split
      · show (referralDb.create _ _ _ 5).withdrawals = db.withdrawals
        unfold referralDb.create
        rw [if_pos (by norm_num)]
        rfl
      · rfl

theorem ledgerInv_bonusApply (d : DB) (uid rid : Nat) (hd : ledgerInv d) :
    ledgerInv (bonusApply d uid rid) := by
  unfold bonusApply
  apply ledgerInv_of_eq _ (bonusCredited d uid rid) rfl rfl
  unfold bonusCredited
  apply ledgerInv_updateBalance _ _ _ _ _ ?_ (by simp [signedAmount])
  unfold setFirstTaskCompleted
  apply ledgerInv_users_map d _ ?_ hd
  intro u
  constructor
  · by_cases h : (u.id == uid) = true <;> simp [h]
  · by_cases h : (u.id == uid) = true <;> simp [h]

theorem ledgerInv_approveWApplied (db : DB) (w : Withdrawal) (wId : Nat)
    (notes : String) (now : Nat) (hinv : ledgerInv db) (hpos : 0 < w.amount) :
    ledgerInv (approveWApplied db w wId notes now) := by
  have hdeb : ledgerInv (approveWDebited db w wId notes now) := by
    unfold approveWDebited
    apply ledgerInv_updateBalance _ _ _ _ _ ?_ ?_
    · exact ledgerInv_of_eq _ db rfl rfl hinv
    · simp [signedAmount]
      omega
  unfold approveWApplied
  split
  · split
    · unfold userDb.lockUpi
      apply ledgerInv_users_map _ _ ?_ hdeb
      intro u
      constructor
      · by_cases h : (u.id == w.userId) = true <;> simp [h]
      · by_cases h : (u.id == w.userId) = true <;> simp [h]
    · exact hdeb
  · exact hdeb

theorem withdrawalsPos_approveWApplied (db : DB) (w : Withdrawal) (wId : Nat)
    (notes : String) (now : Nat) (hw : withdrawalsPos db) :
    withdrawalsPos (approveWApplied db w wId notes now) := by
  intro x hmem
  rw [withdrawals_approveWApplied] at hmem
  have hmem' : x ∈ db.withdrawals.map fun y =>
      if y.id == wId && y.status == RStatus.pending then
        { y with status := RStatus.approved, processDate := some now, adminNotes := notes }
      else y := hmem
  simp only [List.mem_map] at hmem'
  obtain ⟨y, hy, rfl⟩ := hmem'
  by_cases h : (y.id == wId && y.status == RStatus.pending) = true
  · rw [if_pos h]
    exact hw y hy
  · rw [if_neg h]
    exact hw y hy

theorem claimCheckin_ok_state (db : DB) (userId now : Nat) (rand : Fin 10)
    (d : DB) (amount : Int) (day : Nat)
    (hc : server.claimCheckin db userId now rand = .ok (d, amount, day)) :
    d = checkinDb.claim db userId day ((rand : Nat) + 1 : Int) now := by
  unfold server.claimCheckin at hc
  cases hg : checkinDb.getLastCheckin db userId with
  | none =>
    simp only [hg] at hc
    injection hc with h1
    injection h1 with hd h2
    injection h2 with hamt hday
    subst hday
    exact hd.symm
  | some lc =>
    simp only [hg] at hc
    by_cases hlt : now - lc.claimedAt < 24 * 3600000
    · rw [if_pos hlt] at hc
      exact Except.noConfusion hc
    · rw [if_neg hlt] at hc
      injection hc with h1
      injection h1 with hd h2
      injection h2 with hamt hday
      subst hday
      exact hd.symm

theorem ledgerInv_claim (db : DB) (userId day : Nat) (amount : Int) (now : Nat)
    (hinv : ledgerInv db) (ha : 0 ≤ amount) :
    ledgerInv (checkinDb.claim db userId day amount now) := by
  unfold checkinDb.claim
  apply ledgerInv_updateBalance _ _ _ _ _ ?_ ?_
  · exact ledgerInv_of_eq _ db rfl rfl hinv
  · simp [signedAmount]
    omega

theorem requestWithdrawal_ok_state (db : DB) (user : User) (amount : Int)
    (method details : String) (newId now : Nat) (d : DB)
    (hok : server.requestWithdrawal db user amount method details newId now = .ok d) :
    d = { db with withdrawals := db.withdrawals ++
        [{ id := newId, userId := user.id, amount := amount, paymentMethod := method,
           paymentDetails := details, status := .pending, requestDate := now,
           processDate := none, adminNotes := "" }] } ∧
      50 ≤ amount := by
  unfold server.requestWithdrawal at hok
  by_cases h1 : (amount == 0 || method == "" || details == "") = true
  · rw [if_pos h1] at hok
    exact Except.noConfusion hok
  · rw [if_neg h1] at hok
    by_cases h2 : amount < 50
    · rw [if_pos h2] at hok
      exact Except.noConfusion hok
    · rw [if_neg h2] at hok
      by_cases h3 :
          amount > user.balance - withdrawalDb.getPendingTotalByUser db user.id
      · rw [if_pos h3] at hok
        exact Except.noConfusion hok
      · rw [if_neg h3] at hok
        injection hok with hd
        exact ⟨hd.symm, by omega⟩

theorem findById_setFlag (d : DB) (uid y : Nat) :
    findById (setFirstTaskCompleted d uid) y
      = (findById d y).map fun u =>
          if u.id == uid then { u with firstTaskCompleted := true } else u :=
  find?_id_update d.users uid (fun u => { u with firstTaskCompleted := true })
    (fun _ => rfl) y

theorem flagOf_approveBase (db : DB) (p uid t : Nat) (price : Int) (y : Nat) :
    flagOf (approveBase db p uid t price) y = flagOf db y :=
  flagOf_updateBalance _ uid price .task_reward _ y

theorem refOf_approveBase (db : DB) (p uid t : Nat) (price : Int) (y : Nat) :
    refOf (approveBase db p uid t price) y = refOf db y :=
  refOf_updateBalance _ uid price .task_reward _ y

theorem balanceOf_approveBase_ne (db : DB) (p uid t : Nat) (price : Int) (y : Nat)
    (h : y ≠ uid) :
    balanceOf (approveBase db p uid t price) y = balanceOf db y :=
  balanceOf_updateBalance_ne _ uid price .task_reward _ y h

theorem rewardSum_approveBase (db : DB) (p uid t : Nat) (price : Int) (x y : Nat) :
    rewardSum (approveBase db p uid t price) x y = rewardSum db x y := rfl

theorem referralRowCount_approveBase (db : DB) (p uid t : Nat) (price : Int) (x y : Nat) :
    referralRowCount (approveBase db p uid t price) x y = referralRowCount db x y := rfl

theorem refTxnCount_approveBase (db : DB) (p uid t : Nat) (price : Int) (y : Nat) :
    refTxnCount (approveBase db p uid t price) y = refTxnCount db y := by
  unfold approveBase
  rw [refTxnCount_updateBalance]
  rw [if_neg (by simp)]
  show refTxnCount db y + 0 = refTxnCount db y
  omega

theorem isSome_approveBase (db : DB) (p uid t : Nat) (price : Int) (y : Nat) :
    (findById (approveBase db p uid t price) y).isSome = (findById db y).isSome :=
  isSome_findById_updateBalance _ uid price .task_reward _ y

theorem findById_approveBase_self (db : DB) (p uid t : Nat) (price : Int) (u0 : User)
    (hu : findById db uid = some u0) :
    findById (approveBase db p uid t price) uid
      = some { u0 with balance := u0.balance + price } := by
  have hid : u0.id = uid := findById_some db uid u0 hu
  rw [findById_approveBase, hu]
  show some (if u0.id == uid then { u0 with balance := u0.balance + price } else u0) = _
  rw [if_pos (by simp [hid])]

theorem approve_eq_bonus (db : DB) (p t : Nat) (price : Int) (uid r : Nat) (u0 : User)
    (hu : findById db uid = some u0) (href : u0.referrerId = some r)
    (hflag : u0.firstTaskCompleted = false) :
    pendingTaskDb.approve db p uid t price
      = bonusApply (approveBase db p uid t price) uid r := by
  rw [approve_unfold]
  simp only [findById_approveBase_self db p uid t price u0 hu]
  show (match ({ u0 with balance := u0.balance + price } : User).referrerId with
    | none => approveBase db p uid t price
    | some refId =>
      if ({ u0 with balance := u0.balance + price } : User).firstTaskCompleted then
        approveBase db p uid t price
      else bonusApply (approveBase db p uid t price) uid refId)
    = bonusApply (approveBase db p uid t price) uid r
  have h1 : ({ u0 with balance := u0.balance + price } : User).referrerId = some r := href
  rw [h1]
  have h2 : ({ u0 with balance := u0.balance + price } : User).firstTaskCompleted
      = false := hflag
  show (if ({ u0 with balance := u0.balance + price } : User).firstTaskCompleted then
      approveBase db p uid t price
    else bonusApply (approveBase db p uid t price) uid r)
    = bonusApply (approveBase db p uid t price) uid r
  rw [h2]
  rw [if_neg (fun h => Bool.noConfusion h)]

theorem approve_eq_base (db : DB) (p t : Nat) (price : Int) (uid : Nat) (u1 : User)
    (hu : findById db uid = some u1) (hflag : u1.firstTaskCompleted = true) :
    pendingTaskDb.approve db p uid t price = approveBase db p uid t price := by
  rw [approve_unfold]
  simp only [findById_approveBase_self db p uid t price u1 hu]
  show (match ({ u1 with balance := u1.balance + price } : User).referrerId with
    | none => approveBase db p uid t price
    | some refId =>
      if ({ u1 with balance := u1.balance + price } : User).firstTaskCompleted then
        approveBase db p uid t price
      else bonusApply (approveBase db p uid t price) uid refId)
    = approveBase db p uid t price
  cases href : u1.referrerId with
  | none => rfl
  | some rr =>
    simp only [hflag]
    rw [if_pos trivial]

theorem sum_reward_map (r n : Nat) :
    ∀ l : List Referral,
      (((l.map fun rc =>
          if rc.referrerId == r && rc.referredId == n then
            { rc with rewardAmount := rc.rewardAmount + 15 }
          else rc).filter fun rc => rc.referrerId == r && rc.referredId == n).map
        Referral.rewardAmount).sum
        = ((l.filter fun rc => rc.referrerId == r && rc.referredId == n).map
            Referral.rewardAmount).sum
          + 15 * (((l.filter fun rc => rc.referrerId == r && rc.referredId == n).length
              : Nat) : Int) := by
  intro l
  induction l with
  | nil => rfl
  | cons x t ih =>
    by_cases h : (x.referrerId == r && x.referredId == n) = true
    · have h' : (({ x with rewardAmount := x.rewardAmount + 15 } : Referral).referrerId == r
          && ({ x with rewardAmount := x.rewardAmount + 15 } : Referral).referredId == n)
          = true := h
      simp only [List.map_cons, List.filter_cons, h, h', if_true, List.sum_cons,
        List.length_cons]
      rw [ih]
      push_cast
      ring
    · have h' : (({ x with rewardAmount := x.rewardAmount + 15 } : Referral).referrerId == r
          && ({ x with rewardAmount := x.rewardAmount + 15 } : Referral).referredId == n)
          = false := by
        simp only [Bool.not_eq_true] at h
        exact h
      simp only [List.map_cons, List.filter_cons, h, h', Bool.false_eq_true, if_false]
      exact ih

theorem length_filter_reward_map (r n : Nat) :
    ∀ l : List Referral,
      ((l.map fun rc =>
          if rc.referrerId == r && rc.referredId == n then
            { rc with rewardAmount := rc.rewardAmount + 15 }
          else rc).filter fun rc => rc.referrerId == r && rc.referredId == n).length
        = (l.filter fun rc => rc.referrerId == r && rc.referredId == n).length := by
  intro l
  induction l with
  | nil => rfl
  | cons x t ih =>
    by_cases h : (x.referrerId == r && x.referredId == n) = true
    · have h' : (({ x with rewardAmount := x.rewardAmount + 15 } : Referral).referrerId == r
          && ({ x with rewardAmount := x.rewardAmount + 15 } : Referral).referredId == n)
          = true := h
      simp only [List.map_cons, List.filter_cons, h, h', if_true, List.length_cons]
      rw [ih]
    · have h' : (({ x with rewardAmount := x.rewardAmount + 15 } : Referral).referrerId == r
          && ({ x with rewardAmount := x.rewardAmount + 15 } : Referral).referredId == n)
          = false := by
        simp only [Bool.not_eq_true] at h
        exact h
      simp only [List.map_cons, List.filter_cons, h, h', Bool.false_eq_true, if_false]
      exact ih

theorem referrals_bonusApply (d : DB) (uid r : Nat) :
    (bonusApply d uid r).referrals
      = d.referrals.map fun rc =>
          if rc.referrerId == r && rc.referredId == uid then
            { rc with rewardAmount := rc.rewardAmount + 15 }
          else rc := rfl

theorem rewardSum_bonusApply (d : DB) (uid r : Nat) :
    rewardSum (bonusApply d uid r) r uid
      = rewardSum d r uid + 15 * ((referralRowCount d r uid : Nat) : Int) := by
  unfold rewardSum referralRowCount
  rw [referrals_bonusApply]
  exact sum_reward_map r uid d.referrals

theorem referralRowCount_bonusApply (d : DB) (uid r : Nat) :
    referralRowCount (bonusApply d uid r) r uid = referralRowCount d r uid := by
  unfold referralRowCount
  rw [referrals_bonusApply]
  exact length_filter_reward_map r uid d.referrals

theorem balanceOf_bonusApply_r (d : DB) (uid r : Nat)
    (hrex : (findById d r).isSome = true) :
    balanceOf (bonusApply d uid r) r = balanceOf d r + 15 := by
  have h1 : balanceOf (bonusApply d uid r) r = balanceOf (bonusCredited d uid r) r := rfl
  rw [h1]
  unfold bonusCredited
  have hs : (findById (setFirstTaskCompleted d uid) r).isSome := by
    rw [findById_setFlag]
    cases hfr : findById d r with
    | none =>
      rw [hfr] at hrex
      simp at hrex
    | some v => rfl
  rw [balanceOf_updateBalance_self _ _ _ _ _ hs]
  have h2 : balanceOf (setFirstTaskCompleted d uid) r = balanceOf d r := by
    unfold balanceOf
    rw [findById_setFlag]
    rw [proj_update_eq User.balance (fun v => { v with firstTaskCompleted := true })
      (fun _ => rfl) uid (findById d r)]
  rw [h2]

theorem refTxnCount_bonusApply (d : DB) (uid r : Nat) :
    refTxnCount (bonusApply d uid r) r = refTxnCount d r + 1 := by
  have h1 : refTxnCount (bonusApply d uid r) r = refTxnCount (bonusCredited d uid r) r := rfl
  rw [h1]
  unfold bonusCredited
  rw [refTxnCount_updateBalance]
  rw [if_pos ⟨rfl, rfl⟩]
  rfl

theorem isSome_bonusApply (d : DB) (uid r y : Nat) :
    (findById (bonusApply d uid r) y).isSome = (findById d y).isSome := by
  have h0 : findById (bonusApply d uid r) y = findById (bonusCredited d uid r) y := rfl
  rw [h0]
  unfold bonusCredited
  rw [isSome_findById_updateBalance, findById_setFlag]
  cases findById d y <;> rfl

theorem findById_bonusApply_uid (d : DB) (uid r : Nat) (u1 : User)
    (hu : findById d uid = some u1) (hne : uid ≠ r) :
    findById (bonusApply d uid r) uid
      = some { u1 with firstTaskCompleted := true } := by
  have hid : u1.id = uid := findById_some d uid u1 hu
  have hb1 : (u1.id == uid) = true := by simp [hid]
  have h0 : findById (bonusApply d uid r) uid = findById (bonusCredited d uid r) uid := rfl
  rw [h0]
  unfold bonusCredited
  rw [findById_updateBalance, findById_setFlag, hu]
  have hinner : Option.map
      (fun u => if u.id == uid then { u with firstTaskCompleted := true } else u) (some u1)
      = some { u1 with firstTaskCompleted := true } := by
    show some (if u1.id == uid then { u1 with firstTaskCompleted := true } else u1)
      = some { u1 with firstTaskCompleted := true }
    rw [if_pos hb1]
  rw [hinner]
  rw [Option.map_some']
  have hb2 : (u1.id == r) = false := by
    rw [beq_eq_false_iff_ne, hid]
    exact hne
  simp [hb2]

theorem approve_fire (db : DB) (p t : Nat) (price : Int) (uid r : Nat) (u0 : User)
    (hu : findById db uid = some u0) (href : u0.referrerId = some r)
    (hflag : u0.firstTaskCompleted = false) (hor : r ≠ uid)
    (hrex : (findById db r).isSome = true) :
    findById (pendingTaskDb.approve db p uid t price) uid
        = some { u0 with balance := u0.balance + price, firstTaskCompleted := true } ∧
    rewardSum (pendingTaskDb.approve db p uid t price) r uid
        = rewardSum db r uid + 15 * ((referralRowCount db r uid : Nat) : Int) ∧
    balanceOf (pendingTaskDb.approve db p uid t price) r = balanceOf db r + 15 ∧
    refTxnCount (pendingTaskDb.approve db p uid t price) r = refTxnCount db r + 1 ∧
    (findById (pendingTaskDb.approve db p uid t price) r).isSome = true := by
  rw [approve_eq_bonus db p t price uid r u0 hu href hflag]
  have hbase := findById_approveBase_self db p uid t price u0 hu
  refine ⟨?_, ?_, ?_, ?_, ?_⟩
  · rw [findById_bonusApply_uid _ uid r _ hbase (Ne.symm hor)]
  · rw [rewardSum_bonusApply]
    rw [rewardSum_approveBase, referralRowCount_approveBase]
  · rw [balanceOf_bonusApply_r _ uid r (by rw [isSome_approveBase]; exact hrex)]
    rw [balanceOf_approveBase_ne db p uid t price r hor]
  · rw [refTxnCount_bonusApply, refTxnCount_approveBase]
  · rw [isSome_bonusApply, isSome_approveBase]
    exact hrex

theorem approve_nofire (db : DB) (p t : Nat) (price : Int) (uid r : Nat) (u1 : User)
    (hu : findById db uid = some u1) (hflag : u1.firstTaskCompleted = true)
    (hor : r ≠ uid) :
    findById (pendingTaskDb.approve db p uid t price) uid
        = some { u1 with balance := u1.balance + price } ∧
    rewardSum (pendingTaskDb.approve db p uid t price) r uid = rewardSum db r uid ∧
    balanceOf (pendingTaskDb.approve db p uid t price) r = balanceOf db r ∧
    refTxnCount (pendingTaskDb.approve db p uid t price) r = refTxnCount db r := by
  rw [approve_eq_base db p t price uid u1 hu hflag]
  exact ⟨findById_approveBase_self db p uid t price u1 hu, rfl,
    balanceOf_approveBase_ne db p uid t price r hor,
    refTxnCount_approveBase db p uid t price r⟩

theorem approveList_nofire (uid r : Nat) (hor : r ≠ uid) :
    ∀ (L : List ApproveArgs) (db : DB) (u1 : User),
      findById db uid = some u1 → u1.firstTaskCompleted = true →
      (∀ a ∈ L, a.userId = uid) →
      (∃ u2, findById (approveList db L) uid = some u2 ∧ u2.firstTaskCompleted = true) ∧
      rewardSum (approveList db L) r uid = rewardSum db r uid ∧
      balanceOf (approveList db L) r = balanceOf db r ∧
      refTxnCount (approveList db L) r = refTxnCount db r := by
  intro L
  induction L with
  | nil =>
    intro db u1 hu hflag hall
    exact ⟨⟨u1, hu, hflag⟩, rfl, rfl, rfl⟩
  | cons a L ih =>
    intro db u1 hu hflag hall
    have ha : a.userId = uid := hall a (by simp)
    obtain ⟨h1, h2, h3, h4⟩ :=
      approve_nofire db a.pendingId a.taskId a.price uid r u1 hu hflag hor
    have hfold : approveList db (a :: L)
        = approveList
            (pendingTaskDb.approve db a.pendingId a.userId a.taskId a.price) L := rfl
    rw [ha] at hfold
    rw [hfold]
    obtain ⟨hex, hrs, hbal, hcnt⟩ :=
      ih (pendingTaskDb.approve db a.pendingId uid a.taskId a.price)
        { u1 with balance := u1.balance + a.price } h1 hflag
        (fun x hx => hall x (by simp [hx]))
    exact ⟨hex, by rw [hrs, h2], by rw [hbal, h3], by rw [hcnt, h4]⟩

theorem ledgerInv_create5 (d : DB) (r n : Nat) (hd : ledgerInv d) :
    ledgerInv (referralDb.create d r n 5) := by
  unfold referralDb.create
  rw [if_pos (by norm_num)]
  apply ledgerInv_updateBalance _ _ _ _ _ ?_ (by simp [signedAmount])
  apply ledgerInv_of_eq _
    { d with users := d.users.map fun u =>
        if u.id == n then { u with referrerId := some r } else u } rfl rfl
  apply ledgerInv_users_map d _ ?_ hd
  intro u
  constructor
  · by_cases h : (u.id == n) = true <;> simp [h]
  · by_cases h : (u.id == n) = true <;> simp [h]

theorem map_update_id {α : Type} (p : α → Bool) (f : α → α) :
    ∀ l : List α, (∀ x ∈ l, p x = false) →
      (l.map fun x => if p x then f x else x) = l := by
  intro l
  induction l with
  | nil => intro _; rfl
  | cons a t ih =>
    intro h
    have ha : p a = false := h a (by simp)
    simp only [List.map_cons, ha, Bool.false_eq_true, if_false]
    rw [ih (fun x hx => h x (by simp [hx]))]

/-! ### Concrete fixtures -/

/-- A standalone user with no referrer. -/
def aliceUser : User :=
  { id := 1, balance := 0, referrerId := none, firstTaskCompleted := false,
    upiLocked := false, registeredUpi := "", upi := "alice@upi", banned := false,
    referralCode := "ALICE222" }

/-- A pending submission of task 1 by user 1. -/
def alicePending : PendingTask :=
  { id := 1, userId := 1, taskId := 1, status := .pending, customReason := "" }

/-- One user, one pending task submission, empty ledger. -/
def dbOnePending : DB :=
  { users := [aliceUser], transactions := [], pendingTasks := [alicePending],
    completedTasks := [], referrals := [], withdrawals := [], checkins := [] }

/-! ### Claims -/

/-- C1: the claim says an approve or reject on an already-terminal submission
fails as an error with zero additional ledger entries and no balance change.
The code has no status guard: re-approving the already-approved submission 1
silently re-applies, credits the task price a second time (balance 20 → 40)
and appends a second `task_reward` ledger entry, and `reject` silently flips
the approved submission to `rejected`.  This theorem evaluates the code at
that failing input. -/
theorem C1_terminal_resubmission_code_bug :
    (pendingTaskDb.approve dbOnePending 1 1 1 20).pendingTasks.map PendingTask.status
        = [RStatus.approved] ∧
    balanceOf (pendingTaskDb.approve dbOnePending 1 1 1 20) 1 = 20 ∧
    (pendingTaskDb.approve dbOnePending 1 1 1 20).transactions.length = 1 ∧
    balanceOf
        (pendingTaskDb.approve (pendingTaskDb.approve dbOnePending 1 1 1 20) 1 1 1 20) 1
      = 40 ∧
    (pendingTaskDb.approve
        (pendingTaskDb.approve dbOnePending 1 1 1 20) 1 1 1 20).transactions.length = 2 ∧
    (pendingTaskDb.reject
        (pendingTaskDb.approve dbOnePending 1 1 1 20) 1 "no").pendingTasks.map
      PendingTask.status = [RStatus.rejected] := by
  decide

/-- C7 counterexample: user 42 does not exist, yet `userDb.updateBalance`
neither fails nor stays clean — it leaves every user row untouched but still
appends a transaction record referencing the missing user, contradicting
"fails with NotFound, no partial state". -/
theorem C7_counterexample :
    findById dbOnePending 42 = none ∧
    (userDb.updateBalance dbOnePending 42 10 .admin_credit "gift").users
        = dbOnePending.users ∧
    (userDb.updateBalance dbOnePending 42 10 .admin_credit "gift").transactions.length
        = dbOnePending.transactions.length + 1 := by
  decide

/-- C7 (amended): a ledger credit or debit for a nonexistent user does not
fail and is not atomic — the balance update touches no user row, but exactly
one transaction record referencing the missing user is still appended. -/
theorem C7_orphan_transaction (db : DB) (uid : Nat) (a : Int) (ty : TxnType)
    (r : String) (h : findById db uid = none) :
    (userDb.updateBalance db uid a ty r).users = db.users ∧
    (userDb.updateBalance db uid a ty r).transactions
      = db.transactions ++
        [{ userId := uid, ty := ty, amount := (a.natAbs : Int), reason := r }] := by
  constructor
  · show (db.users.map fun u =>
        if u.id == uid then { u with balance := u.balance + a } else u) = db.users
    apply map_update_id
    intro x hx
    unfold findById at h
    rw [List.find?_eq_none] at h
    have hb := h x hx
    simpa using hb
  · rfl

/-- C7 witness: the amended statement at a concrete input. -/
theorem C7_witness :
    (userDb.updateBalance dbOnePending 42 10 .admin_credit "gift").users
        = dbOnePending.users ∧
    (userDb.updateBalance dbOnePending 42 10 .admin_credit "gift").transactions
      = dbOnePending.transactions ++
        [{ userId := 42, ty := .admin_credit, amount := 10, reason := "gift" }] :=
  C7_orphan_transaction dbOnePending 42 10 .admin_credit "gift" (by decide)

/-- A user with a large balance and no pending withdrawals. -/
def richUser : User :=
  { id := 2, balance := 1000, referrerId := none, firstTaskCompleted := false,
    upiLocked := false, registeredUpi := "", upi := "rich@upi", banned := false,
    referralCode := "RICH2222" }

/-- One rich user, nothing else. -/
def dbRich : DB :=
  { users := [richUser], transactions := [], pendingTasks := [],
    completedTasks := [], referrals := [], withdrawals := [], checkins := [] }

/-- C6 counterexample: a requested amount of 0 is below the minimum of 50,
but the route fails it with the all-fields-required falsiness check
(`!amount`), not with the below-minimum error the claim promises for every
`amount < 50`. -/
theorem C6_counterexample :
    (0 : Int) < 50 ∧
    server.requestWithdrawal dbRich richUser 0 "upi" "x@y" 9 5
        = .error .allFieldsRequired ∧
    server.requestWithdrawal dbRich richUser 0 "upi" "x@y" 9 5
        ≠ .error .belowMinimum := by
  decide

/-- C6 (amended): with payment fields present — a zero amount fails the
required-fields check; a nonzero amount below 50 fails with the
below-minimum error; an amount of at least 50 exceeding
`balance - sum(own pending withdrawals)` fails with `InsufficientBalance`;
otherwise exactly one pending withdrawal row is appended and no user row,
balance or ledger entry changes. -/
theorem C6_request_withdrawal (db : DB) (user : User) (amount : Int)
    (method details : String) (newId now : Nat)
    (hm : method ≠ "") (hd : details ≠ "") :
    (amount = 0 →
      server.requestWithdrawal db user amount method details newId now
        = .error .allFieldsRequired) ∧
    (amount ≠ 0 → amount < 50 →
      server.requestWithdrawal db user amount method details newId now
        = .error .belowMinimum) ∧
    (50 ≤ amount →
      amount > user.balance - withdrawalDb.getPendingTotalByUser db user.id →
      server.requestWithdrawal db user amount method details newId now
        = .error (.insufficientBalance (withdrawalDb.getPendingTotalByUser db user.id))) ∧
    (50 ≤ amount →
      amount ≤ user.balance - withdrawalDb.getPendingTotalByUser db user.id →
      server.requestWithdrawal db user amount method details newId now
        = .ok { db with withdrawals := db.withdrawals ++
            [{ id := newId, userId := user.id, amount := amount,
               paymentMethod := method, paymentDetails := details, status := .pending,
               requestDate := now, processDate := none, adminNotes := "" }] }) := by
  have hmb : (method == "") = false := by simp [hm]
  have hdb : (details == "") = false := by simp [hd]
  refine ⟨?_, ?_, ?_, ?_⟩
  · intro h0
    simp [server.requestWithdrawal, h0]
  · intro h0 hlt
    have h0b : (amount == 0) = false := by simp [h0]
    simp [server.requestWithdrawal, h0b, hmb, hdb, hlt]
  · intro h50 hgt
    have h0b : (amount == 0) = false := by simp; omega
    have hlt : ¬ amount < 50 := by omega
    simp [server.requestWithdrawal, h0b, hmb, hdb, hlt, hgt]
  · intro h50 hle
    have h0b : (amount == 0) = false := by simp; omega
    have hlt : ¬ amount < 50 := by omega
    have hgt : ¬ amount > user.balance - withdrawalDb.getPendingTotalByUser db user.id := by
      omega
    simp [server.requestWithdrawal, h0b, hmb, hdb, hlt, hgt, withdrawalDb.create]

/-- C6 witness: the amended statement at concrete inputs: an amount of 10
fails below-minimum, an amount of 60 against balance 1000 creates the
pending row. -/
theorem C6_witness :
    server.requestWithdrawal dbRich richUser 10 "upi" "x@y" 9 5
        = .error .belowMinimum ∧
    server.requestWithdrawal dbRich richUser 60 "upi" "x@y" 9 5
        = .ok { dbRich with withdrawals := dbRich.withdrawals ++
            [{ id := 9, userId := 2, amount := 60, paymentMethod := "upi",
               paymentDetails := "x@y", status := .pending, requestDate := 5,
               processDate := none, adminNotes := "" }] } := by
  constructor
  · exact (C6_request_withdrawal dbRich richUser 10 "upi" "x@y" 9 5
      (by decide) (by decide)).2.1 (by decide) (by decide)
  · exact (C6_request_withdrawal dbRich richUser 60 "upi" "x@y" 9 5
      (by decide) (by decide)).2.2.2 (by decide) (by decide)

/-- A user with balance 100 whose UPI is not yet locked. -/
def claraUser : User :=
  { id := 3, balance := 100, referrerId := none, firstTaskCompleted := false,
    upiLocked := false, registeredUpi := "", upi := "clara@upi", banned := false,
    referralCode := "CLARA222" }

/-- A pending withdrawal of 60 by user 3. -/
def wPending : Withdrawal :=
  { id := 7, userId := 3, amount := 60, paymentMethod := "upi", paymentDetails := "x@y",
    status := .pending, requestDate := 1, processDate := none, adminNotes := "" }

/-- One unlocked user with one pending withdrawal. -/
def dbPendingW : DB :=
  { users := [claraUser], transactions := [], pendingTasks := [], completedTasks := [],
    referrals := [], withdrawals := [wPending], checkins := [] }

/-- C4: `withdrawalDb.approve` on a missing or already-processed withdrawal
throws — the route catches the error and the database is untouched (the
model's error result carries no successor state); on a pending one it sets
status `approved` with the process timestamp and defaulted admin notes,
debits the full amount from the user, and appends exactly one
`withdrawal`-category ledger entry. -/
theorem C4_approve_withdrawal_guard (db : DB) (wId : Nat) (notes : String) (now : Nat) :
    (getWithdrawal db wId = none →
      withdrawalDb.approve db wId notes now = .error "Withdrawal request not found") ∧
    (∀ w, getWithdrawal db wId = some w → w.status ≠ RStatus.pending →
      withdrawalDb.approve db wId notes now = .error "Withdrawal already processed") ∧
    (∀ w, getWithdrawal db wId = some w → w.status = RStatus.pending →
      ∃ db', withdrawalDb.approve db wId notes now = .ok db' ∧
        getWithdrawal db' wId
          = some { w with
                   status := .approved, processDate := some now,
                   adminNotes := if notes == "" then "Approved by admin" else notes } ∧
        db'.transactions = db.transactions ++
          [{ userId := w.userId, ty := .withdrawal,
             amount := (((-w.amount).natAbs : Nat) : Int),
             reason := "Withdrawal approved" }] ∧
        ((findById db w.userId).isSome →
          balanceOf db' w.userId = balanceOf db w.userId - w.amount)) := by
  refine ⟨?_, ?_, ?_⟩
  · intro hne
    rw [approveW_unfold]
    unfold getWithdrawal at hne
    simp only [hne]
  · intro w hw hst
    rw [approveW_unfold]
    unfold getWithdrawal at hw
    simp only [hw]
    rw [if_pos hst]
  · intro w hw hst
    rw [approveW_unfold]
    have hw' := hw
    unfold getWithdrawal at hw'
    simp only [hw']
    rw [if_neg (fun h => h hst)]
    refine ⟨_, rfl, ?_, ?_, ?_⟩
    · exact getWithdrawal_approveWApplied db w wId _ now hw hst
    · exact transactions_approveWApplied db w wId _ now
    · intro hs
      rw [balanceOf_approveWApplied]
      exact balanceOf_approveWDebited_self db w wId _ now hs

/-- C4 witness: the pending-withdrawal case at a concrete input. -/
theorem C4_witness :
    ∃ db', withdrawalDb.approve dbPendingW 7 "" 9 = .ok db' ∧
      getWithdrawal db' 7
        = some { wPending with
                 status := .approved, processDate := some 9,
                 adminNotes := "Approved by admin" } ∧
      db'.transactions = dbPendingW.transactions ++
        [{ userId := 3, ty := .withdrawal, amount := 60, reason := "Withdrawal approved" }] ∧
      ((findById dbPendingW 3).isSome → balanceOf db' 3 = balanceOf dbPendingW 3 - 60) := by
  obtain ⟨db', h1, h2, h3, h4⟩ :=
    (C4_approve_withdrawal_guard dbPendingW 7 "" 9).2.2 wPending (by decide) (by decide)
  exact ⟨db', h1, h2, h3, h4⟩

/-- C5: approving a pending withdrawal of a user whose UPI is not yet locked
sets `upi_locked` to true and both `registered_upi` and the active `upi`
field to that withdrawal's payment details; and any user whose UPI is already
locked keeps `upi_locked = true` and an unchanged `registered_upi` across
every successful withdrawal approval. -/
theorem C5_upi_lock_monotone (db : DB) (wId : Nat) (notes : String) (now : Nat) :
    (∀ w u, getWithdrawal db wId = some w → w.status = RStatus.pending →
      findById db w.userId = some u → u.upiLocked = false →
      ∃ db', withdrawalDb.approve db wId notes now = .ok db' ∧
        lockedOf db' w.userId = some true ∧
        regUpiOf db' w.userId = some w.paymentDetails ∧
        upiOf db' w.userId = some w.paymentDetails) ∧
    (∀ y uy db', findById db y = some uy → uy.upiLocked = true →
      withdrawalDb.approve db wId notes now = .ok db' →
      lockedOf db' y = some true ∧ regUpiOf db' y = some uy.registeredUpi) := by
  constructor
  · intro w u hw hst hu hl
    rw [approveW_unfold]
    unfold getWithdrawal at hw
    simp only [hw]
    rw [if_neg (fun h => h hst)]
    refine ⟨_, rfl, ?_⟩
    rw [approveWApplied_of_unlocked db w wId _ now u hu hl]
    exact upiFields_lockUpi_self _ _ _ _
      (findById_approveWDebited_self db w wId _ now u hu)
  · intro y uy db' huy hlock happ
    rw [approveW_unfold] at happ
    cases hfind : db.withdrawals.find? (fun x => x.id == wId) with
    | none =>
      simp only [hfind] at happ
      exact Except.noConfusion happ
    | some w =>
      simp only [hfind] at happ
      by_cases hst : w.status = RStatus.pending
      · rw [if_neg (fun h => h hst)] at happ
        injection happ with hdb'
        subst hdb'
        by_cases hy : y = w.userId
        · subst hy
          rw [approveWApplied_of_locked db w wId _ now uy huy hlock]
          constructor
          · rw [lockedOf_approveWDebited]
            unfold lockedOf
            rw [huy]
            show some uy.upiLocked = some true
            rw [hlock]
          · rw [regUpiOf_approveWDebited]
            unfold regUpiOf
            rw [huy]
            rfl
        · constructor
          · rw [lockedOf_approveWApplied_ne _ _ _ _ _ _ hy]
            unfold lockedOf
            rw [huy]
            show some uy.upiLocked = some true
            rw [hlock]
          · rw [regUpiOf_approveWApplied_ne _ _ _ _ _ _ hy]
            unfold regUpiOf
            rw [huy]
            rfl
      · rw [if_pos hst] at happ
        exact Except.noConfusion happ

/-- C5 witness: the first-withdrawal lock at a concrete input. -/
theorem C5_witness :
    ∃ db', withdrawalDb.approve dbPendingW 7 "done" 9 = .ok db' ∧
      lockedOf db' 3 = some true ∧
      regUpiOf db' 3 = some "x@y" ∧
      upiOf db' 3 = some "x@y" := by
  obtain ⟨db', h1, h2, h3, h4⟩ := (C5_upi_lock_monotone dbPendingW 7 "done" 9).1 wPending
    claraUser (by decide) (by decide) (by decide) (by decide)
  exact ⟨db', h1, h2, h3, h4⟩

/-- The empty database. -/
def emptyDB : DB :=
  { users := [], transactions := [], pendingTasks := [], completedTasks := [],
    referrals := [], withdrawals := [], checkins := [] }

/-- Signup of user 1 followed by an admin credit of 100. -/
def trace1 : DB :=
  server.adminAdjustBalance (server.signup emptyDB 1 "alice@upi" "ALICE222" "") 1 100 "gift"

/-- User 1 then requests a withdrawal of 60 (available balance 100). -/
def trace2 : DB := runRequestWithdrawal trace1 1 60 "upi" "x@y" 1 50

/-- An admin debit of 80 lands after the request passed its availability
check. -/
def trace3 : DB := server.adminAdjustBalance trace2 1 (-80) "correction"

/-- The admin then approves the pending withdrawal. -/
def trace4 : DB := runApproveWithdrawal trace3 1 "" 99

/-- C10: `withdrawalDb.approve` never re-checks the user's current balance —
every pending withdrawal is approved with the full amount debited
unconditionally — and on the concrete reachable trace (signup, +100 admin
credit, request 60, −80 admin debit, approve) the approval succeeds and the
stored balance ends at −40, negative, while still matching the ledger. -/
theorem C10_unconditional_debit :
    (∀ (db : DB) (wId : Nat) (w : Withdrawal) (notes : String) (now : Nat),
      getWithdrawal db wId = some w → w.status = RStatus.pending →
      ∃ db', withdrawalDb.approve db wId notes now = .ok db' ∧
        ((findById db w.userId).isSome →
          balanceOf db' w.userId = balanceOf db w.userId - w.amount)) ∧
    ((withdrawalDb.approve trace3 1 "" 99).toOption = some trace4 ∧
      trace2.withdrawals.map Withdrawal.status = [RStatus.pending] ∧
      balanceOf trace3 1 = 20 ∧
      balanceOf trace4 1 = -40 ∧
      ledgerInv trace4) := by
  constructor
  · intro db wId w notes now hw hst
    rw [approveW_unfold]
    unfold getWithdrawal at hw
    simp only [hw]
    rw [if_neg (fun h => h hst)]
    refine ⟨_, rfl, ?_⟩
    intro hs
    rw [balanceOf_approveWApplied]
    exact balanceOf_approveWDebited_self db w wId _ now hs
  · decide

/-- C10 witness: the universally quantified half at a concrete input. -/
theorem C10_witness :
    ∃ db', withdrawalDb.approve dbPendingW 7 "note" 9 = .ok db' ∧
      ((findById dbPendingW 3).isSome → balanceOf db' 3 = balanceOf dbPendingW 3 - 60) := by
  obtain ⟨db', h1, h2⟩ :=
    (C10_unconditional_debit).1 dbPendingW 7 wPending "note" 9 (by decide) (by decide)
  exact ⟨db', h1, h2⟩

/-- C9: the check-in claim route: with no prior claim it succeeds with day 1;
with a most recent claim less than 24 hours old it fails with the too-soon
error (and, the result being an error, no record or credit is produced); with
a most recent claim at least 24 hours old it succeeds with day
`lastDay + 1`, wrapping to 1 when `lastDay ≥ 7`.  The granted amount
`rand + 1` lies in `[1, 10]`, and every successful claim appends exactly one
check-in record and one `daily_checkin` ledger entry crediting the amount. -/
theorem C9_checkin_cycle (db : DB) (userId now : Nat) (rand : Fin 10)
    (hu : (findById db userId).isSome) :
    (checkinDb.getLastCheckin db userId = none →
      server.claimCheckin db userId now rand
        = .ok (checkinDb.claim db userId 1 ((rand : Nat) + 1 : Int) now,
            ((rand : Nat) + 1 : Int), 1)) ∧
    (∀ lc, checkinDb.getLastCheckin db userId = some lc →
      now - lc.claimedAt < 24 * 3600000 →
      server.claimCheckin db userId now rand
        = .error "You can claim again after 24 hours!") ∧
    (∀ lc, checkinDb.getLastCheckin db userId = some lc →
      24 * 3600000 ≤ now - lc.claimedAt →
      server.claimCheckin db userId now rand
        = .ok (checkinDb.claim db userId (if lc.day ≥ 7 then 1 else lc.day + 1)
            ((rand : Nat) + 1 : Int) now,
            ((rand : Nat) + 1 : Int), if lc.day ≥ 7 then 1 else lc.day + 1)) ∧
    (1 ≤ ((rand : Nat) + 1 : Int) ∧ ((rand : Nat) + 1 : Int) ≤ 10) ∧
    (∀ (day : Nat) (amount : Int),
      (checkinDb.claim db userId day amount now).checkins
          = db.checkins ++
            [{ userId := userId, day := day, amount := amount, claimedAt := now }] ∧
      (checkinDb.claim db userId day amount now).transactions
          = db.transactions ++
            [{ userId := userId, ty := .daily_checkin, amount := (amount.natAbs : Int),
               reason := "Day " ++ toString day ++ " daily check-in" }] ∧
      balanceOf (checkinDb.claim db userId day amount now) userId
          = balanceOf db userId + amount) := by
  refine ⟨?_, ?_, ?_, ?_, ?_⟩
  · intro hnone
    unfold server.claimCheckin
    rw [hnone]
  · intro lc hlc hlt
    unfold server.claimCheckin
    rw [hlc]
    show (if now - lc.claimedAt < 24 * 3600000 then
        (.error "You can claim again after 24 hours!" :
          Except String (DB × Int × Nat))
      else _) = .error "You can claim again after 24 hours!"
    rw [if_pos hlt]
  · intro lc hlc hge
    unfold server.claimCheckin
    rw [hlc]
    show (if now - lc.claimedAt < 24 * 3600000 then
        (.error "You can claim again after 24 hours!" :
          Except String (DB × Int × Nat))
      else _) = _
    rw [if_neg (not_lt.mpr hge)]
  · have hr := rand.isLt
    constructor
    · omega
    · omega
  · intro day amount
    refine ⟨rfl, rfl, ?_⟩
    have hs : (findById { db with checkins := db.checkins ++
        [{ userId := userId, day := day, amount := amount, claimedAt := now }] }
        userId).isSome := hu
    exact balanceOf_updateBalance_self _ userId amount .daily_checkin _ hs

/-- C8: signup carrying an invite code (the field validations having passed):
when the uppercased code belongs to an existing non-banned user — fresh-id
signup makes self-matching an existing row impossible — exactly one Referral
row with reward 5 is appended, the new user's `referrer_id` is set to the
referrer, and the referrer is credited 5 through exactly one
`referral`-category ledger entry; when the code resolves to a banned user, or
to no existing user (which covers invalid codes and the self-referential
match against the fresh user's own code), the referral step is silently
skipped and the signup still succeeds — the new user row is appended and
nothing else changes. -/
theorem C8_signup_referral (db : DB) (newId : Nat) (upi code invite : String)
    (hfresh : ∀ u ∈ db.users, u.id ≠ newId) (hinvite : invite ≠ "") :
    (∀ ref, db.users.find? (fun u => u.referralCode == asciiUpper invite) = some ref →
      ref.banned = false →
      (server.signup db newId upi code invite).referrals
          = db.referrals ++
            [{ referrerId := ref.id, referredId := newId, rewardAmount := 5 }] ∧
      refOf (server.signup db newId upi code invite) newId = some (some ref.id) ∧
      balanceOf (server.signup db newId upi code invite) ref.id
          = balanceOf db ref.id + 5 ∧
      (server.signup db newId upi code invite).transactions
          = db.transactions ++
            [{ userId := ref.id, ty := .referral, amount := 5,
               reason := "Referral bonus (instant ₹5)" }]) ∧
    (∀ ref, db.users.find? (fun u => u.referralCode == asciiUpper invite) = some ref →
      ref.banned = true →
      server.signup db newId upi code invite
        = { db with users := db.users ++ [newSignupUser newId upi code] }) ∧
    (db.users.find? (fun u => u.referralCode == asciiUpper invite) = none →
      server.signup db newId upi code invite
        = { db with users := db.users ++ [newSignupUser newId upi code] }) := by
  have hinvb : ¬ ((invite == "") = true) := by simp [hinvite]
  refine ⟨?_, ?_, ?_⟩
  · intro ref href hbanned
    have hmem := List.mem_of_find?_eq_some href
    have hrefid : ref.id ≠ newId := hfresh ref hmem
    have hfind1 : (db.users ++ [newSignupUser newId upi code]).find?
        (fun u => u.referralCode == asciiUpper invite) = some ref :=
      find?_append_some _ _ _ _ href
    have hguard : (ref.id != newId && !ref.banned) = true := by
      simp [hrefid, hbanned]
    have hsig : server.signup db newId upi code invite
        = referralDb.create
            { db with users := db.users ++ [newSignupUser newId upi code] }
            ref.id newId 5 := by
      rw [signup_unfold, if_neg hinvb]
      simp only [hfind1]
      rw [if_pos hguard]
    have hcr : referralDb.create
          { db with users := db.users ++ [newSignupUser newId upi code] }
          ref.id newId 5
        = userDb.updateBalance
            (referralDb.createBase
              { db with users := db.users ++ [newSignupUser newId upi code] }
              ref.id newId 5)
            ref.id 5 .referral "Referral bonus (instant ₹5)" := by
      unfold referralDb.create
      rw [if_pos (by norm_num)]
    have hsome : (findById db ref.id).isSome = true := by
      unfold findById
      exact find?_isSome_of_mem _ _ ref hmem (by simp)
    refine ⟨?_, ?_, ?_, ?_⟩
    · rw [hsig, hcr]
      rfl
    · rw [hsig, hcr, refOf_updateBalance]
      have hnone : db.users.find? (fun u => u.id == newId) = none := by
        rw [List.find?_eq_none]
        intro x hx
        simp [hfresh x hx]
      have hS : findById
          ({ db with users := db.users ++ [newSignupUser newId upi code] } : DB) newId
          = some (newSignupUser newId upi code) := by
        show (db.users ++ [newSignupUser newId upi code]).find? (fun u => u.id == newId)
          = some (newSignupUser newId upi code)
        rw [find?_append_none _ _ _ hnone]
        simp [List.find?, newSignupUser]
      unfold refOf
      rw [findById_createBase, hS]
      show some ((if (newSignupUser newId upi code).id == newId then
          { newSignupUser newId upi code with referrerId := some ref.id }
        else newSignupUser newId upi code).referrerId) = some (some ref.id)
      rw [if_pos (by simp [newSignupUser])]
    · cases h0 : findById db ref.id with
      | none =>
        rw [h0] at hsome
        cases hsome
      | some u0 =>
        have hu0id : u0.id = ref.id := findById_some db ref.id u0 h0
        have hu0ne : ¬ ((u0.id == newId) = true) := by
          simp only [beq_iff_eq, hu0id]
          exact hrefid
        have hSref : findById
            ({ db with users := db.users ++ [newSignupUser newId upi code] } : DB) ref.id
            = some u0 := by
          show (db.users ++ [newSignupUser newId upi code]).find? (fun u => u.id == ref.id)
            = some u0
          exact find?_append_some _ _ _ _ h0
        have hCref : findById
            (referralDb.createBase
              { db with users := db.users ++ [newSignupUser newId upi code] }
              ref.id newId 5) ref.id
            = some u0 := by
          rw [findById_createBase, hSref]
          show some (if u0.id == newId then { u0 with referrerId := some ref.id } else u0)
            = some u0
          rw [if_neg hu0ne]
        rw [hsig, hcr]
        rw [balanceOf_updateBalance_self _ _ _ _ _ (by rw [hCref]; rfl)]
        unfold balanceOf
        rw [hCref, h0]
    · rw [hsig, hcr]
      rfl
  · intro ref href hbanned
    have hfind1 : (db.users ++ [newSignupUser newId upi code]).find?
        (fun u => u.referralCode == asciiUpper invite) = some ref :=
      find?_append_some _ _ _ _ href
    have hguard : (ref.id != newId && !ref.banned) = false := by
      simp [hbanned]
    rw [signup_unfold, if_neg hinvb]
    simp only [hfind1]
    rw [if_neg (by rw [hguard]; simp)]
  · intro hnone
    rw [signup_unfold, if_neg hinvb]
    have happ : (db.users ++ [newSignupUser newId upi code]).find?
        (fun u => u.referralCode == asciiUpper invite)
        = [newSignupUser newId upi code].find?
            (fun u => u.referralCode == asciiUpper invite) :=
      find?_append_none _ _ _ hnone
    by_cases hself : ((newSignupUser newId upi code).referralCode == asciiUpper invite)
        = true
    · have hsome : (db.users ++ [newSignupUser newId upi code]).find?
          (fun u => u.referralCode == asciiUpper invite)
          = some (newSignupUser newId upi code) := by
        rw [happ]
        simp [List.find?, hself]
      simp only [hsome]
      rw [if_neg (by simp [newSignupUser])]
    · have hnone2 : (db.users ++ [newSignupUser newId upi code]).find?
          (fun u => u.referralCode == asciiUpper invite) = none := by
        rw [happ]
        simp [List.find?, hself]
      simp only [hnone2]

/-- A referrer with code `REFCODE9` and no balance. -/
def refBobUser : User :=
  { id := 7, balance := 0, referrerId := none, firstTaskCompleted := false,
    upiLocked := false, registeredUpi := "", upi := "bob@upi", banned := false,
    referralCode := "REFCODE9" }

/-- One prospective referrer, nothing else. -/
def dbRef : DB :=
  { users := [refBobUser], transactions := [], pendingTasks := [], completedTasks := [],
    referrals := [], withdrawals := [], checkins := [] }

/-- C8 witness: signing up user 8 with bob's code (in lowercase) creates the
referral row, links the new user and credits bob 5 with one ledger entry. -/
theorem C8_witness :
    (server.signup dbRef 8 "new@upi" "NEWCODE2" "refcode9").referrals
        = dbRef.referrals ++ [{ referrerId := 7, referredId := 8, rewardAmount := 5 }] ∧
    refOf (server.signup dbRef 8 "new@upi" "NEWCODE2" "refcode9") 8 = some (some 7) ∧
    balanceOf (server.signup dbRef 8 "new@upi" "NEWCODE2" "refcode9") 7
        = balanceOf dbRef 7 + 5 ∧
    (server.signup dbRef 8 "new@upi" "NEWCODE2" "refcode9").transactions
        = dbRef.transactions ++
          [{ userId := 7, ty := .referral, amount := 5,
             reason := "Referral bonus (instant ₹5)" }] := by
  obtain ⟨h1, h2, h3, h4⟩ := (C8_signup_referral dbRef 8 "new@upi" "NEWCODE2" "refcode9"
    (by decide) (by decide)).1 refBobUser (by decide) (by decide)
  exact ⟨h1, h2, h3, h4⟩

/-- C3 counterexample: on a state satisfying the auditability invariant, an
admin bulk bonus of −10 — which the route accepts, it only rejects amount
0 — subtracts 10 from every non-banned balance but records an `admin_credit`
of 10, so the stored balance (−10) no longer equals the signed ledger sum
(+10). -/
theorem C3_counterexample :
    ledgerInv dbOnePending ∧ withdrawalsPos dbOnePending ∧
    ¬ ledgerInv (step dbOnePending (.bulkBonus (-10) "festival")) ∧
    balanceOf (step dbOnePending (.bulkBonus (-10) "festival")) 1 = -10 ∧
    ledgerSum (step dbOnePending (.bulkBonus (-10) "festival")) 1 = 10 := by
  decide

/-- C3 (amended): the auditability invariant — every stored balance equals
the signed sum of that user's transactions, and every withdrawal row keeps a
positive amount — is preserved by every operation of the core, provided a
task approval's price and a bulk bonus's amount are nonnegative (both are
recorded as crediting categories of the absolute value, so negative values
break the correspondence, as the counterexample shows) and a signup's fresh
id is referenced by no pre-existing transaction. -/
theorem C3_ledger_invariant (db : DB) (op : Op)
    (hinv : ledgerInv db) (hw : withdrawalsPos db) (hop : opSafe db op) :
    ledgerInv (step db op) ∧ withdrawalsPos (step db op) := by
  cases op with
  | adjust userId amount reason =>
    show ledgerInv (server.adminAdjustBalance db userId amount reason) ∧
      withdrawalsPos (server.adminAdjustBalance db userId amount reason)
    constructor
    · unfold server.adminAdjustBalance
      apply ledgerInv_updateBalance _ _ _ _ _ hinv
      by_cases h : amount > 0
      · rw [if_pos h]
        simp only [signedAmount]
        omega
      · rw [if_neg h]
        simp only [signedAmount]
        omega
    · exact withdrawalsPos_of_eq db _ rfl hw
  | bulkBonus amount reason =>
    show ledgerInv (userDb.addBulkBonus db amount reason) ∧
      withdrawalsPos (userDb.addBulkBonus db amount reason)
    constructor
    · unfold userDb.addBulkBonus
      apply ledgerInv_creditFold amount .admin_credit reason ?_ _ _ hinv
      intro uid
      have h0 : (0 : Int) ≤ amount := hop
      simp only [signedAmount]
      omega
    · apply withdrawalsPos_of_eq db _ ?_ hw
      unfold userDb.addBulkBonus
      exact withdrawals_creditFold amount .admin_credit reason _ db
  | approveTask pendingId userId taskId price =>
    show ledgerInv (pendingTaskDb.approve db pendingId userId taskId price) ∧
      withdrawalsPos (pendingTaskDb.approve db pendingId userId taskId price)
    constructor
    · have hbase : ledgerInv (approveBase db pendingId userId taskId price) := by
        unfold approveBase
        apply ledgerInv_updateBalance _ _ _ _ _ ?_ ?_
        · exact ledgerInv_of_eq _ db rfl rfl hinv
        · have h0 : (0 : Int) ≤ price := hop
          simp only [signedAmount]
          omega
      rw [approve_unfold]
      split
      · exact hbase
      · split
        · exact hbase
        · split
          · exact hbase
          · exact ledgerInv_bonusApply _ _ _ hbase
    · exact withdrawalsPos_of_eq db _
        (withdrawals_approveTask db pendingId userId taskId price) hw
  | rejectTask pendingId reason =>
    exact ⟨ledgerInv_of_eq _ db rfl rfl hinv, withdrawalsPos_of_eq db _ rfl hw⟩
  | signup newId upi code invite =>
    show ledgerInv (server.signup db newId upi code invite) ∧
      withdrawalsPos (server.signup db newId upi code invite)
    constructor
    · have hnewinv :
          ledgerInv { db with users := db.users ++ [newSignupUser newId upi code] } := by
        intro u hmem
        have hmem' : u ∈ db.users ++ [newSignupUser newId upi code] := hmem
        rcases List.mem_append.mp hmem' with h1 | h2
        · exact hinv u h1
        · have h2' : u = newSignupUser newId upi code := by simpa using h2
          subst h2'
          show (0 : Int)
            = ((db.transactions.filter fun t => t.userId == newId).map signedAmount).sum
          have hfil : db.transactions.filter (fun t => t.userId == newId) = [] := by
            rw [List.filter_eq_nil_iff]
            intro t ht
            simp [hop t ht]
          rw [hfil]
          rfl
      rw [signup_unfold]
      split
      · exact hnewinv
      · split
        · exact hnewinv
        · split
          · exact ledgerInv_create5 _ _ _ hnewinv
          · exact hnewinv
    · exact withdrawalsPos_of_eq db _ (withdrawals_signup db newId upi code invite) hw
  | claimCheckin userId now rand =>
    show ledgerInv (runClaimCheckin db userId now rand) ∧
      withdrawalsPos (runClaimCheckin db userId now rand)
    cases hc : server.claimCheckin db userId now rand with
    | error e =>
      have hrun : runClaimCheckin db userId now rand = db := by
        unfold runClaimCheckin
        rw [hc]
      rw [hrun]
      exact ⟨hinv, hw⟩
    | ok res =>
      obtain ⟨d, amount, day⟩ := res
      have hrun : runClaimCheckin db userId now rand = d := by
        unfold runClaimCheckin
        rw [hc]
      rw [hrun]
      have hd := claimCheckin_ok_state db userId now rand d amount day hc
      subst hd
      constructor
      · exact ledgerInv_claim db userId day _ now hinv (by omega)
      · exact withdrawalsPos_of_eq db _ rfl hw
  | requestWithdrawal userId amount method details newId now =>
    show ledgerInv (runRequestWithdrawal db userId amount method details newId now) ∧
      withdrawalsPos (runRequestWithdrawal db userId amount method details newId now)
    cases hf : findById db userId with
    | none =>
      have hrun : runRequestWithdrawal db userId amount method details newId now = db := by
        unfold runRequestWithdrawal
        rw [hf]
      rw [hrun]
      exact ⟨hinv, hw⟩
    | some u =>
      cases hr : server.requestWithdrawal db u amount method details newId now with
      | error e =>
        have hrun : runRequestWithdrawal db userId amount method details newId now
            = db := by
          unfold runRequestWithdrawal
          simp only [hf]
          rw [hr]
        rw [hrun]
        exact ⟨hinv, hw⟩
      | ok d =>
        have hrun : runRequestWithdrawal db userId amount method details newId now
            = d := by
          unfold runRequestWithdrawal
          simp only [hf]
          rw [hr]
        rw [hrun]
        obtain ⟨hd, h50⟩ :=
          requestWithdrawal_ok_state db u amount method details newId now d hr
        subst hd
        refine ⟨ledgerInv_of_eq _ db rfl rfl hinv,
          withdrawalsPos_append db _ hw ?_⟩
        show (0 : Int) < amount
        omega
  | approveWithdrawal wid notes now =>
    show ledgerInv (runApproveWithdrawal db wid notes now) ∧
      withdrawalsPos (runApproveWithdrawal db wid notes now)
    cases ha : withdrawalDb.approve db wid notes now with
    | error e =>
      have hrun : runApproveWithdrawal db wid notes now = db := by
        unfold runApproveWithdrawal
        rw [ha]
      rw [hrun]
      exact ⟨hinv, hw⟩
    | ok d =>
      have hrun : runApproveWithdrawal db wid notes now = d := by
        unfold runApproveWithdrawal
        rw [ha]
      rw [hrun]
      rw [approveW_unfold] at ha
      cases hfind : db.withdrawals.find? (fun x => x.id == wid) with
      | none =>
        simp only [hfind] at ha
        exact Except.noConfusion ha
      | some w =>
        simp only [hfind] at ha
        by_cases hst : w.status = RStatus.pending
        · rw [if_neg (fun h => h hst)] at ha
          injection ha with hd
          subst hd
          have hwmem := List.mem_of_find?_eq_some hfind
          exact ⟨ledgerInv_approveWApplied db w wid _ now hinv (hw w hwmem),
            withdrawalsPos_approveWApplied db w wid _ now hw⟩
        · rw [if_pos hst] at ha
          exact Except.noConfusion ha
  | rejectWithdrawal wid notes now =>
    show ledgerInv (runRejectWithdrawal db wid notes now) ∧
      withdrawalsPos (runRejectWithdrawal db wid notes now)
    cases ha : withdrawalDb.reject db wid notes now with
    | error e =>
      have hrun : runRejectWithdrawal db wid notes now = db := by
        unfold runRejectWithdrawal
        rw [ha]
      rw [hrun]
      exact ⟨hinv, hw⟩
    | ok d =>
      have hrun : runRejectWithdrawal db wid notes now = d := by
        unfold runRejectWithdrawal
        rw [ha]
      rw [hrun]
      unfold withdrawalDb.reject at ha
      cases hfind : db.withdrawals.find? (fun x => x.id == wid) with
      | none =>
        simp only [hfind] at ha
        exact Except.noConfusion ha
      | some w =>
        simp only [hfind] at ha
        by_cases hst : w.status = RStatus.pending
        · rw [if_neg (fun h => h hst)] at ha
          injection ha with hd
          subst hd
          refine ⟨ledgerInv_of_eq _ db rfl rfl hinv, ?_⟩
          intro x hmem
          have hmem' : x ∈ db.withdrawals.map fun y =>
              if y.id == wid && y.status == RStatus.pending then
                { y with
                  status := RStatus.rejected, processDate := some now,
                  adminNotes := if notes == "" then "Rejected by admin" else notes }
              else y := hmem
          simp only [List.mem_map] at hmem'
          obtain ⟨y, hy, rfl⟩ := hmem'
          by_cases h : (y.id == wid && y.status == RStatus.pending) = true
          · rw [if_pos h]
            exact hw y hy
          · rw [if_neg h]
            exact hw y hy
        · rw [if_pos hst] at ha
          exact Except.noConfusion ha

/-- C3 witness: the amended invariant applied to a concrete admin debit. -/
theorem C3_witness :
    ledgerInv (step dbOnePending (.adjust 1 (-25) "fine")) ∧
    withdrawalsPos (step dbOnePending (.adjust 1 (-25) "fine")) :=
  C3_ledger_invariant dbOnePending (.adjust 1 (-25) "fine")
    (by decide) (by decide) trivial

/-- A referred user: signed up with refBobUser's code (referrer id 7), first
task not yet completed. -/
def referredUser : User :=
  { id := 10, balance := 0, referrerId := some 7, firstTaskCompleted := false,
    upiLocked := false, registeredUpi := "", upi := "ref@upi", banned := false,
    referralCode := "REFD2222" }

/-- Referrer 7 and referred user 10 with their referral row (instant bonus of
5 already recorded). -/
def dbReferred : DB :=
  { users := [refBobUser, referredUser],
    transactions :=
      [{ userId := 7, ty := .referral, amount := 5,
         reason := "Referral bonus (instant ₹5)" }],
    pendingTasks :=
      [{ id := 1, userId := 10, taskId := 1, status := .pending, customReason := "" },
       { id := 2, userId := 10, taskId := 2, status := .pending, customReason := "" }],
    completedTasks := [],
    referrals := [{ referrerId := 7, referredId := 10, rewardAmount := 5 }],
    withdrawals := [], checkins := [] }

/-- C2: for a referred user (referrer `r`, `first_task_completed` still
false, with their unique Referral row), any nonempty sequence of approvals of
that user's submissions — however many distinct tasks, whatever the prices —
fires the first-task bonus exactly once: the flag ends true, the Referral
row's cumulative reward grows by exactly 15, the referrer's balance grows by
exactly 15, and exactly one `referral`-category ledger entry is appended for
the referrer. -/
theorem C2_first_task_bonus_once (db : DB) (L : List ApproveArgs) (uid r : Nat)
    (u0 : User) (hu : findById db uid = some u0) (href : u0.referrerId = some r)
    (hflag : u0.firstTaskCompleted = false) (hor : r ≠ uid)
    (hrex : (findById db r).isSome = true) (hrc : referralRowCount db r uid = 1)
    (hall : ∀ a ∈ L, a.userId = uid) (hne : L ≠ []) :
    (∃ u2, findById (approveList db L) uid = some u2 ∧ u2.firstTaskCompleted = true) ∧
    rewardSum (approveList db L) r uid = rewardSum db r uid + 15 ∧
    balanceOf (approveList db L) r = balanceOf db r + 15 ∧
    refTxnCount (approveList db L) r = refTxnCount db r + 1 := by
  cases L with
  | nil => exact absurd rfl hne
  | cons a L =>
    have ha : a.userId = uid := hall a (by simp)
    obtain ⟨h1, h2, h3, h4, h5⟩ :=
      approve_fire db a.pendingId a.taskId a.price uid r u0 hu href hflag hor hrex
    have hfold : approveList db (a :: L)
        = approveList
            (pendingTaskDb.approve db a.pendingId a.userId a.taskId a.price) L := rfl
    rw [ha] at hfold
    rw [hfold]
    obtain ⟨hex, hrs, hbal, hcnt⟩ := approveList_nofire uid r hor L
      (pendingTaskDb.approve db a.pendingId uid a.taskId a.price)
      { u0 with balance := u0.balance + a.price, firstTaskCompleted := true } h1 rfl
      (fun x hx => hall x (by simp [hx]))
    refine ⟨hex, ?_, ?_, ?_⟩
    · rw [hrs, h2, hrc]
      norm_num
    · rw [hbal, h3]
    · rw [hcnt, h4]

/-- C2 witness: two approvals of the referred user's two submissions credit
the referrer exactly 15 once. -/
theorem C2_witness :
    (∃ u2, findById (approveList dbReferred [⟨1, 10, 1, 20⟩, ⟨2, 10, 2, 30⟩]) 10
        = some u2 ∧ u2.firstTaskCompleted = true) ∧
    rewardSum (approveList dbReferred [⟨1, 10, 1, 20⟩, ⟨2, 10, 2, 30⟩]) 7 10
        = rewardSum dbReferred 7 10 + 15 ∧
    balanceOf (approveList dbReferred [⟨1, 10, 1, 20⟩, ⟨2, 10, 2, 30⟩]) 7
        = balanceOf dbReferred 7 + 15 ∧
    refTxnCount (approveList dbReferred [⟨1, 10, 1, 20⟩, ⟨2, 10, 2, 30⟩]) 7
        = refTxnCount dbReferred 7 + 1 :=
  C2_first_task_bonus_once dbReferred [⟨1, 10, 1, 20⟩, ⟨2, 10, 2, 30⟩] 10 7 referredUser
    (by decide) (by decide) (by decide) (by decide) (by decide) (by decide)
    (by decide) (by decide)

/-- C9 witness: a first claim with oracle 4 grants 5 on day 1 and the claim
state appends the record and ledger entry. -/
theorem C9_witness :
    server.claimCheckin dbRich 2 1000 ⟨4, by decide⟩
      = .ok (checkinDb.claim dbRich 2 1 5 1000, 5, 1) ∧
    balanceOf (checkinDb.claim dbRich 2 1 5 1000) 2 = balanceOf dbRich 2 + 5 := by
  have h := C9_checkin_cycle dbRich 2 1000 ⟨4, by decide⟩ (by decide)
  exact ⟨h.1 (by decide), (h.2.2.2.2 1 5).2.2⟩

end CashByKing
